import Mathlib

/-!
Verification of the odrviewer OpenDRIVE decoding engine (the pyxodr core).

This file gives a shallow embedding, in Lean 4, of the parts of the source
that the frozen claims are about:

* `Road.reference_line_geometries`  (src/pyxodr/road_objects/road.py)
* `Road.__partition_lane_offset_line_into_lane_sections`  (road.py)
* `CubicPolynom._u_array_from_arc_lengths` / `__call__`  (src/pyxodr/geometries/cubic_polynom.py)
* `interpolate_path` and `fix_zero_directions`  (src/pyxodr/utils/array.py)
* `Lane.traffic_flow_line`, `Lane._get_connecting_ids`,
  `Lane.get_boundary_line_segment`  (src/pyxodr/road_objects/lane.py)
* `Road._link_lane_sections` / `RoadNetwork._link_roads`  (road.py / network.py)

Floating point numbers are modelled by rationals; numpy arrays by lists.
Python exceptions are modelled by `Except` or by explicit outcome types.
-/

namespace Odr

/-! ## C1: Road.reference_line_geometries (road.py lines 121-224)

The source walks `planView/geometry` elements in document order, reads the
common attributes (`s`, `x`, `y`, `hdg`, `length`) and the variant child
(`line` / `arc` / `poly3` / `paramPoly3` / `spiral`), and builds one
geometry object per element.  We model an element after lexing: the
attribute floats plus the recognised variant child (the source raises
`NotImplementedError` for an unrecognised child; a lexed element always
carries one of the five variants, so that branch has no counterpart here).
-/

/-- Variant child of a `planView/geometry` element, with the attributes the
source reads from it. -/
inductive GeomSpec where
  | line : GeomSpec
  | arc (curvature : ℚ) : GeomSpec
  | poly3 (a b c d : ℚ) : GeomSpec
  | paramPoly3 (aU bU cU dU aV bV cV dV : ℚ) (pRangeNormalized : Bool) : GeomSpec
  | spiral (curvStart curvEnd : ℚ) : GeomSpec
deriving DecidableEq

/-- One `planView/geometry` element: the attributes read by the source loop
(`s`, `x`, `y`, `hdg`, `length`) plus the variant child. -/
structure PlanViewGeometry where
  s : ℚ
  x : ℚ
  y : ℚ
  hdg : ℚ
  length : ℚ
  spec : GeomSpec
deriving DecidableEq

/-- The geometry objects built by `Road.reference_line_geometries`, with the
constructor arguments the source passes (`Line`, `Arc`, `CubicPolynom`,
`ParamCubicPolynom`, `Spiral`). -/
inductive Geometry where
  | line (x_offset y_offset heading_offset length : ℚ) : Geometry
  | arc (x_offset y_offset heading_offset length curvature : ℚ) : Geometry
  | cubicPolynom (a b c d x_offset y_offset heading_offset length : ℚ) : Geometry
  | paramCubicPolynom (a_u b_u c_u d_u a_v b_v c_v d_v
      x_offset y_offset heading_offset length : ℚ) : Geometry
  | spiral (curv_start curv_end x_offset y_offset heading_offset length : ℚ) : Geometry
deriving DecidableEq

/-- Construction of one geometry object from one element, mirroring the
if/elif chain of `Road.reference_line_geometries`.  For `paramPoly3` the
source sets the length to `1.0` when `pRange` is `"normalized"` and to the
element's `length` attribute otherwise. -/
def toGeometry (g : PlanViewGeometry) : Geometry :=
  match g.spec with
  | .line => .line g.x g.y g.hdg g.length
  | .arc curvature => .arc g.x g.y g.hdg g.length curvature
  | .poly3 a b c d => .cubicPolynom a b c d g.x g.y g.hdg g.length
  | .paramPoly3 aU bU cU dU aV bV cV dV norm =>
      .paramCubicPolynom aU bU cU dU aV bV cV dV g.x g.y g.hdg
        (if norm then 1 else g.length)
  | .spiral c0 c1 => .spiral c0 c1 g.x g.y g.hdg g.length

/-- Ordered insertion used by `argsortQ`. -/
def insertIdxByVal (l : List ℚ) (i : Nat) : List Nat → List Nat
  | [] => [i]
  | j :: js =>
      if l.getD i 0 < l.getD j 0 then i :: j :: js else j :: insertIdxByVal l i js

/-- Model of `numpy.ndarray.argsort`: the list of indices that would sort
the array ascending.  It does not reorder the array itself. -/
def argsortQ (l : List ℚ) : List Nat :=
  (List.range l.length).foldr (fun i acc => insertIdxByVal l i acc) []

/-- Embedding of `Road.reference_line_geometries`.  The source collects the
declared `s` distances and the geometry objects in document order, then
executes the bare statement `geometry_element_distances.argsort()` - whose
result (the sorting permutation) is discarded - and returns `geometries`
unchanged.  The discarded call is kept here as a discarded `let`. -/
def reference_line_geometries (elems : List PlanViewGeometry) : List Geometry :=
  let geometry_element_distances : List ℚ := elems.map (·.s)
  let _ := argsortQ geometry_element_distances
  elems.map toGeometry

/-! ## C2: Road.__partition_lane_offset_line_into_lane_sections
(road.py lines 388-468)

The source reads the declared `s` of every `lanes/laneSection` element,
appends the total reference-line length, and forms for section `i` the
range from `distances[i]` to `distances[i+1]`.  The end is clamped to the
reference-line length; then, twice in a row, `if start_length >=
end_length: start_length = end_length - 0.1`.  We embed the per-section
range computation; the claim is about these ranges (the sub-linestring
extraction the source then performs on them is not part of the claim).
-/

/-- Declared start of section `i`: `lane_section_distances[i]` after the
total length has been appended. -/
def sectionStart (ds : List ℚ) (L : ℚ) (i : Nat) : ℚ := (ds ++ [L]).getD i 0

/-- End of section `i` after the source's clamp
`if end_length > reference_line_length: end_length = reference_line_length`. -/
def sectionClampedEnd (ds : List ℚ) (L : ℚ) (i : Nat) : ℚ :=
  if (ds ++ [L]).getD (i + 1) 0 > L then L else (ds ++ [L]).getD (i + 1) 0

/-- The `[start_length, end_length)` range the source computes for one lane
section, including the clamp and the (twice repeated) degenerate-range
fallback `start_length = end_length - 0.1`. -/
def laneSectionRange (reference_line_length start_length0 end_length0 : ℚ) : ℚ × ℚ :=
  let end_length :=
    if end_length0 > reference_line_length then reference_line_length else end_length0
  let start_length1 :=
    if start_length0 ≥ end_length then end_length - 1/10 else start_length0
  let start_length2 :=
    if start_length1 ≥ end_length then end_length - 1/10 else start_length1
  (start_length2, end_length)

/-- Embedding of the range computation of
`Road.__partition_lane_offset_line_into_lane_sections`: one
`(start_length, end_length)` pair per declared lane section. -/
def partition_lane_sections_ranges (lane_section_distances : List ℚ)
    (reference_line_length : ℚ) : List (ℚ × ℚ) :=
  let ds := lane_section_distances ++ [reference_line_length]
  (List.range lane_section_distances.length).map fun i =>
    laneSectionRange reference_line_length (ds.getD i 0) (ds.getD (i + 1) 0)

/-! ## C5: Lane.traffic_flow_line (lane.py lines 302-334) -/

/-- Traffic orientation of the road (`RHT` / `LHT`), from lane.py. -/
inductive TrafficOrientation where
  | right : TrafficOrientation
  | left : TrafficOrientation
deriving DecidableEq

/-- The fields of `Lane` that `traffic_flow_line` reads: the signed lane id,
the road's traffic orientation and the (already computed) centre line.
Centre-line points carry x, y and z. -/
structure LaneFlow where
  id : ℤ
  traffic_orientation : TrafficOrientation
  centre_line : List (ℚ × ℚ × ℚ)
deriving DecidableEq

/-- Embedding of `Lane._traffic_flows_in_opposite_direction_to_centre_line`:
`(self.id < 0) != (self.traffic_orientation is TrafficOrientation.RIGHT)`. -/
def traffic_flows_in_opposite_direction_to_centre_line (l : LaneFlow) : Bool :=
  decide (l.id < 0) != decide (l.traffic_orientation = TrafficOrientation.right)

/-- Embedding of `Lane.traffic_flow_line`: the centre line, flipped
(`np.flip(..., axis=0)`, i.e. reversed point order) exactly when the lane's
traffic flows opposite to the centre line. -/
def traffic_flow_line (l : LaneFlow) : List (ℚ × ℚ × ℚ) :=
  if traffic_flows_in_opposite_direction_to_centre_line l then
    l.centre_line.reverse
  else
    l.centre_line

/-! ## C8 / C10: Lane.get_boundary_line_segment (lane.py lines 233-284) and
Lane.type (lane.py lines 212-218)

The source first returns `None` when the lane-section reference line is
`None`, then raises `IndexError` when that line has fewer than 2 points,
then branches on which of the two representations (`width` / `border`
elements) the lane declares: both present raises `NotImplementedError`;
neither present returns the reference line itself when the resolved lane
type is null (declared type `"none"`) and raises `NotImplementedError`
otherwise; exactly one present projects a composite curve of the declared
cubic pieces.  We embed the branch structure; the projected boundary value
(`MultiGeom.global_coords_and_offsets_from_reference_line`) is represented
by the outcome constructor recording which representation was used and its
pieces, since no claim is about the projected coordinates themselves.
-/

/-- One `width` or `border` element of a lane: the `s`/`sOffset` of the
piece and the cubic coefficients. -/
structure WidthRecord where
  sOffset : ℚ
  a : ℚ
  b : ℚ
  c : ℚ
  d : ℚ
deriving DecidableEq

/-- The fields of `Lane` read by `get_boundary_line_segment`:
the (possibly absent) lane-section reference line, the declared `width` and
`border` elements and the declared `type` attribute string. -/
structure LaneBoundaryInput where
  lane_section_reference_line : Option (List (ℚ × ℚ))
  widths : List WidthRecord
  borders : List WidthRecord
  declaredType : String
deriving DecidableEq

/-- Embedding of `Lane.type`: the declared type string, with `"none"`
resolved to a null (`Option.none`) type. -/
def laneType (declaredType : String) : Option String :=
  if declaredType = "none" then none else some declaredType

/-- Outcome of `Lane.get_boundary_line_segment`. -/
inductive BoundaryOutcome where
  | noGeometry : BoundaryOutcome
  | zeroLengthReferenceLineError : BoundaryOutcome
  | bothWidthsAndBordersError : BoundaryOutcome
  | neitherWidthsNorBordersError : BoundaryOutcome
  | referenceLine (line : List (ℚ × ℚ)) : BoundaryOutcome
  | projectedBoundary (usedWidths : Bool) (pieces : List WidthRecord) : BoundaryOutcome
deriving DecidableEq

/-- Embedding of `Lane.get_boundary_line_segment`, at the default arguments
(`s_start=0.0`, `s_end=None`) under which `boundary_line` calls it. -/
def get_boundary_line_segment (l : LaneBoundaryInput) : BoundaryOutcome :=
  match l.lane_section_reference_line with
  | none => .noGeometry
  | some ref =>
    if ref.length < 2 then .zeroLengthReferenceLineError
    else
      let lane_uses_widths : Bool := l.widths ≠ []
      let lane_uses_borders : Bool := l.borders ≠ []
      if lane_uses_widths ∧ lane_uses_borders then .bothWidthsAndBordersError
      else if ¬lane_uses_widths ∧ ¬lane_uses_borders then
        match laneType l.declaredType with
        | none => .referenceLine ref
        | some _ => .neitherWidthsNorBordersError
      else
        .projectedBoundary lane_uses_widths (if lane_uses_widths then l.widths else l.borders)

/-! ## C9: Lane._get_connecting_ids (lane.py lines 180-210) -/

/-- The `link` child element of a lane, with the `id` attributes of its
`successor` and `predecessor` children. -/
structure LaneLinkElement where
  successors : List ℤ
  predecessors : List ℤ
deriving DecidableEq

/-- The fields of `Lane` read by `_get_connecting_ids`: the signed lane id
and the optional `link` element. -/
structure LaneConnectivity where
  id : ℤ
  link : Option LaneLinkElement
deriving DecidableEq

/-- The two values of the `connecting_key` argument. -/
inductive ConnectingKey where
  | successor : ConnectingKey
  | predecessor : ConnectingKey
deriving DecidableEq

/-- Embedding of `Lane._get_connecting_ids`: empty when there is no `link`
element or when this is the centre lane (id 0); otherwise the declared ids
for the requested key with id 0 filtered out. -/
def get_connecting_ids (l : LaneConnectivity) (key : ConnectingKey) : List ℤ :=
  match l.link with
  | none => []
  | some link =>
    if l.id = 0 then []
    else
      (match key with
       | .successor => link.successors
       | .predecessor => link.predecessors).filter (fun i => i ≠ 0)

/-- Embedding of `Lane.successor_ids`. -/
def lane_successor_ids (l : LaneConnectivity) : List ℤ :=
  get_connecting_ids l .successor

/-- Embedding of `Lane.predecessor_ids`. -/
def lane_predecessor_ids (l : LaneConnectivity) : List ℤ :=
  get_connecting_ids l .predecessor

/-! ## C3: CubicPolynom._u_array_from_arc_lengths and __call__
(cubic_polynom.py lines 45-127)

The source checks `min(s_array) != 0.0` and raises `ValueError`; then calls
`scipy.integrate.solve_ivp` over the span `(0.0, max(s_array))` with
`t_eval=s_array`; `solve_ivp` requires `t_eval` to be sorted (strictly, in
the direction of integration) and within the span, raising `ValueError`
otherwise - with a zero minimum all values lie in the span, so only the
sortedness check matters, and it is only performed when the span is
non-degenerate (`max > 0`).  Finally the source raises `RuntimeError` when
the solution was not evaluated at exactly the requested distances
(`not (s_array == solution.t).all()`) and otherwise returns `solution.y`.

The numerical integration itself is kept abstract: the solver is a
parameter producing the `(t, y)` arrays of the returned solution object
from the polynomial (whose coefficients define the differential equation
`du/ds`), the span end and the `t_eval` array.
-/

/-- Coefficients of the (deprecated) OpenDRIVE cubic polynomial
`v(u) = a + b u + c u^2 + d u^3`. -/
structure CubicPolynom where
  a : ℚ
  b : ℚ
  c : ℚ
  d : ℚ
deriving DecidableEq

/-- Embedding of `CubicPolynom.u_v_from_u`: the local `(u, v)` pairs. -/
def u_v_from_u (p : CubicPolynom) (u_array : List ℚ) : List (ℚ × ℚ) :=
  u_array.map fun u => (u, p.a + p.b * u + p.c * u ^ 2 + p.d * u ^ 3)

/-- The `(t, y)` arrays of a `solve_ivp` solution object. -/
structure IvpSolution where
  t : List ℚ
  y : List ℚ
deriving DecidableEq

/-- Model of Python's `min` over the sample array: `None` on an empty array
(where numpy's reduction raises). -/
def pyMin : List ℚ → Option ℚ
  | [] => none
  | a :: as => some (as.foldl min a)

/-- Model of Python's `max` over the sample array (only consulted on
non-empty arrays; the default is never reached in the embedded flow). -/
def pyMax : List ℚ → ℚ
  | [] => 0
  | a :: as => as.foldl max a

/-- Embedding of `CubicPolynom._u_array_from_arc_lengths`.  The first guard
is the source's own `min(s_array) != 0.0` check; the second is
`solve_ivp`'s validation of `t_eval` (documented: must be sorted and lie
within `t_span`), active when the integration span is non-degenerate; the
third is the source's `(s_array == solution.t).all()` check. -/
def u_array_from_arc_lengths (solver : CubicPolynom → ℚ → List ℚ → IvpSolution)
    (p : CubicPolynom) (s_array : List ℚ) : Except String (List ℚ) :=
  match pyMin s_array with
  | none => .error "zero-size array to reduction operation minimum"
  | some m =>
    if m ≠ 0 then .error "s_array contains negative values"
    else
      let tf := pyMax s_array
      if 0 < tf ∧ ¬s_array.Chain' (· < ·) then
        .error "Values in t_eval are not properly sorted."
      else
        let solution := solver p tf s_array
        if solution.t ≠ s_array then .error "failed to solve the differential equation"
        else .ok solution.y

/-- Embedding of `CubicPolynom.__call__`: convert the requested distances to
local `u` values, then evaluate the polynomial at them. -/
def cubicPolynomCall (solver : CubicPolynom → ℚ → List ℚ → IvpSolution)
    (p : CubicPolynom) (p_array : List ℚ) : Except String (List (ℚ × ℚ)) :=
  (u_array_from_arc_lengths solver p p_array).map (u_v_from_u p)

/-- A concrete stand-in solver (reports back `t_eval` and half of each
distance), used only to witness the error-handling theorem. -/
def halfSolver : CubicPolynom → ℚ → List ℚ → IvpSolution :=
  fun _ _ t_eval => ⟨t_eval, t_eval.map (fun s => s / 2)⟩

/-! ## C4: interpolate_path (array.py lines 45-61)

The source removes duplicated rows keeping first occurrences in their
original order (`np.unique(..., return_index=True)` followed by indexing
with the sorted first-occurrence indices), computes the cumulative chord
lengths, builds a linear interpolant with extrapolation over them
(`scipy.interpolate.interp1d`, which raises when fewer than 2 data points
remain), samples `np.arange(0, total, resolution)` and falls back to
`[0.0, total]` when that grid has fewer than 2 entries.

The Euclidean chord norm (`np.linalg.norm` of the difference rows) involves
square roots, so it is kept abstract: the embedding takes the norm of a
difference of two points as a `dist` parameter; the theorems assume only
that it is positive on distinct points, which is the one property of the
Euclidean norm this code path relies on.
-/

/-- Keep-first-occurrence deduplication over an accumulator of already seen
rows; models `path_vertices[sorted(idxs)]` after
`np.unique(path_vertices, axis=0, return_index=True)`. -/
def dedupFirstAux (seen : List (ℚ × ℚ)) : List (ℚ × ℚ) → List (ℚ × ℚ)
  | [] => []
  | p :: rest =>
      if p ∈ seen then dedupFirstAux seen rest
      else p :: dedupFirstAux (p :: seen) rest

/-- Duplicated points removed, first occurrences kept in original order. -/
def dedupFirst (path_vertices : List (ℚ × ℚ)) : List (ℚ × ℚ) :=
  dedupFirstAux [] path_vertices

/-- Cumulative chord lengths
`np.hstack([[0.0], np.linalg.norm(np.diff(...), axis=1).cumsum()])`,
with the norm of each difference row given by `dist`. -/
def cumulativeDistances (dist : (ℚ × ℚ) → (ℚ × ℚ) → ℚ) :
    List (ℚ × ℚ) → List ℚ
  | [] => []
  | [_] => [0]
  | p :: q :: rest =>
      0 :: (cumulativeDistances dist (q :: rest)).map (fun x => x + dist p q)

/-- Total chord length of the deduplicated path. -/
def totalChordLength (dist : (ℚ × ℚ) → (ℚ × ℚ) → ℚ)
    (path_vertices : List (ℚ × ℚ)) : ℚ :=
  (cumulativeDistances dist (dedupFirst path_vertices)).getLastD 0

/-- Linear interpolation between two points. -/
def lerp (a b : ℚ × ℚ) (t : ℚ) : ℚ × ℚ :=
  (a.1 + t * (b.1 - a.1), a.2 + t * (b.2 - a.2))

/-- Model of the linear `interp1d(ss, vertices, axis=0,
fill_value="extrapolate")` interpolant at one query point, for strictly
increasing knots: queries at or below the second knot (and left
extrapolation) use the first segment, the final segment also extrapolates
to the right. -/
def interpLinear : List ℚ → List (ℚ × ℚ) → ℚ → ℚ × ℚ
  | [x0, x1], [y0, y1], q => lerp y0 y1 ((q - x0) / (x1 - x0))
  | x0 :: x1 :: xs, y0 :: y1 :: ys, q =>
      if q ≤ x1 then lerp y0 y1 ((q - x0) / (x1 - x0))
      else interpLinear (x1 :: xs) (y1 :: ys) q
  | _, _, _ => (0, 0)

/-- Model of `np.arange(start, stop, step)` for a positive step: the
evenly spaced grid of all `start + i * step` below `stop`. -/
def arangeQ (start stop step : ℚ) : List ℚ :=
  if 0 < step then
    (List.range (Int.ceil ((stop - start) / step)).toNat).map
      fun i : ℕ => start + step * (i : ℚ)
  else []

/-- Embedding of `interpolate_path`.  Fails (as `interp1d` does) when fewer
than 2 distinct vertices remain after deduplication. -/
def interpolate_path (dist : (ℚ × ℚ) → (ℚ × ℚ) → ℚ)
    (path_vertices : List (ℚ × ℚ)) (resolution : ℚ) :
    Except String (List (ℚ × ℚ)) :=
  let verts := dedupFirst path_vertices
  if verts.length < 2 then
    .error "x and y arrays must have at least 2 entries"
  else
    let ss := cumulativeDistances dist verts
    let total := ss.getLastD 0
    let new_distance0 := arangeQ 0 total resolution
    let new_distance := if new_distance0.length < 2 then [0, total] else new_distance0
    .ok (new_distance.map (interpLinear ss verts))

/-- The taxicab norm of the difference of two points: a concrete, rational
instance of the `dist` parameter (positive on distinct points, like the
Euclidean norm), used for concrete evaluations. -/
def taxicab (p q : ℚ × ℚ) : ℚ := |p.1 - q.1| + |p.2 - q.2|

/-! ## C6: Road._link_lane_sections (road.py lines 318-386) and
RoadNetwork._link_roads (network.py lines 86-130)

`_link_roads` walks the roads, resolves each road's declared predecessor /
successor link elements of `elementType == "road"` into
`(road, contact position)` pairs, and calls `_link_lane_sections`, which
mutates the `predecessor_data` / `successor_data` fields of lane sections:
the first section against the predecessor road's section at the stated
contact point, interior pairs against each other, the last section against
the successor road's section.  We embed lane sections by key (road id,
ordinal index), the mutable link fields as a state function over keys, and
the pass as a fold over the roads.  The per-lane `_link_lanes` recursion at
the end of `_link_lane_sections` is outside this claim and not modelled.
-/

/-- Contact position of a connection (OpenDRIVE Table 105): the Python enum
value of `BEGINNING` is 0 and of `END` is -1, used directly as a Python
list index into the connected road's `lane_sections` (`-1` = last). -/
inductive ConnectionPosition where
  | beginning : ConnectionPosition
  | end_ : ConnectionPosition
deriving DecidableEq

/-- The Python list index realised by a contact position for a road with
`n` lane sections: `lane_sections[0]` resp. `lane_sections[-1]`. -/
def ConnectionPosition.index (cp : ConnectionPosition) (n : Nat) : Nat :=
  match cp with
  | .beginning => 0
  | .end_ => n - 1

/-- Key of one lane section: owning road id and ordinal index along it. -/
abbrev SectionKey := String × Nat

/-- The two mutable link fields of a lane section. -/
structure SectionLinks where
  predecessor_data : Option (SectionKey × ConnectionPosition)
  successor_data : Option (SectionKey × ConnectionPosition)
deriving DecidableEq

/-- Link state of every lane section of the network. -/
abbrev LinkState := SectionKey → SectionLinks

/-- All link fields unset, as constructed before the linking pass. -/
def initLinkState : LinkState := fun _ => ⟨none, none⟩

/-- Assignment to a section's `predecessor_data` field. -/
def setPredecessor (st : LinkState) (k : SectionKey)
    (v : SectionKey × ConnectionPosition) : LinkState :=
  fun k2 => if k2 = k then ⟨some v, (st k).successor_data⟩ else st k2

/-- Assignment to a section's `successor_data` field. -/
def setSuccessor (st : LinkState) (k : SectionKey)
    (v : SectionKey × ConnectionPosition) : LinkState :=
  fun k2 => if k2 = k then ⟨(st k).predecessor_data, some v⟩ else st k2

/-- A road as `_link_lane_sections` sees it: id, number of lane sections,
and the resolved road-level `predecessor_data` / `successor_data` (road id
plus contact position), which `_link_roads` sets from the declared link
elements with `elementType == "road"` before the call. -/
structure RoadSpec where
  id : String
  numSections : Nat
  predecessor : Option (String × ConnectionPosition)
  successor : Option (String × ConnectionPosition)
deriving DecidableEq

/-- Lookup of a road by id (`road_ids_to_object`). -/
def findRoad (net : List RoadSpec) (rid : String) : Option RoadSpec :=
  net.find? fun r => r.id == rid

/-- Body of the interior-pair loop of `_link_lane_sections`
(`zip(self.lane_sections, self.lane_sections[1:])`): section `i` gets
section `i+1` as successor at its beginning, section `i+1` gets section `i`
as predecessor at its end. -/
def interiorStep (rid : String) (s : LinkState) (i : Nat) : LinkState :=
  setPredecessor
    (setSuccessor s (rid, i) ((rid, i + 1), ConnectionPosition.beginning))
    (rid, i + 1) ((rid, i), ConnectionPosition.end_)

/-- Embedding of `Road._link_lane_sections` for one road, as a
transformation of the network link state.  A neighbour road id missing from
the arena models Python's `KeyError` in `_link_roads`. -/
def link_lane_sections (net : List RoadSpec) (road : RoadSpec)
    (st : LinkState) : Except String LinkState :=
  let st1e : Except String LinkState :=
    match road.predecessor with
    | none => .ok st
    | some (pid, ppos) =>
      match findRoad net pid with
      | none => .error "KeyError"
      | some predRoad =>
        let ck : SectionKey := (pid, ppos.index predRoad.numSections)
        let stA :=
          if ppos = ConnectionPosition.beginning then
            setPredecessor st ck ((road.id, 0), ConnectionPosition.beginning)
          else
            setSuccessor st ck ((road.id, 0), ConnectionPosition.beginning)
        .ok (setPredecessor stA (road.id, 0) (ck, ppos))
  match st1e with
  | .error e => .error e
  | .ok st1 =>
    let st2 := (List.range (road.numSections - 1)).foldl (interiorStep road.id) st1
    match road.successor with
    | none => .ok st2
    | some (sid, spos) =>
      match findRoad net sid with
      | none => .error "KeyError"
      | some succRoad =>
        let ck : SectionKey := (sid, spos.index succRoad.numSections)
        let st3 := setSuccessor st2 (road.id, road.numSections - 1) (ck, spos)
        .ok
          (if spos = ConnectionPosition.beginning then
            setPredecessor st3 ck
              ((road.id, road.numSections - 1), ConnectionPosition.end_)
          else
            setSuccessor st3 ck
              ((road.id, road.numSections - 1), ConnectionPosition.end_))

/-- The loop of `RoadNetwork._link_roads`: each road of the arena in turn
gets its lane sections linked. -/
def link_roads_aux (net : List RoadSpec) :
    List RoadSpec → LinkState → Except String LinkState
  | [], st => .ok st
  | r :: rs, st =>
    match link_lane_sections net r st with
    | .error e => .error e
    | .ok st2 => link_roads_aux net rs st2

/-- Embedding of the linking pass of `RoadNetwork._link_roads` over the
whole arena of roads. -/
def link_roads (net : List RoadSpec) : Except String LinkState :=
  link_roads_aux net net initLinkState

/-! ## C7: fix_zero_directions (array.py lines 7-42)

The source copies the array, returns it unchanged when no row is all-zero,
raises `ValueError` when all rows are, and otherwise repairs the interior
rows with up to `n - 2` rounds of a forward and a backward pass (each with
an early break when no interior zero row remains), finishing by filling the
first row from the second and the last row from the one before it when
still zero.  Rows are modelled as lists of rationals, in-place index
assignment by `List.set`.
-/

/-- One row of the direction array. -/
abbrev Row := List ℚ

/-- Whether a row is entirely zero (`(dirs[i] == 0).all()`). -/
def zeroRow (r : Row) : Bool := r.all fun x => decide (x = 0)

/-- Row `i` of the array (in bounds at every use in the source). -/
def getRow (d : List Row) (i : Nat) : Row := d.getD i []

/-- Number of all-zero rows (`(dirs == 0).all(1).sum()`). -/
def countZeroRows (d : List Row) : Nat := d.countP zeroRow

/-- Body of both interior repair passes: a zero row takes the value of its
left neighbour if that is non-zero, else of its right neighbour if that is
non-zero. -/
def fixStep (d : List Row) (i : Nat) : List Row :=
  if zeroRow (getRow d i) then
    if ¬zeroRow (getRow d (i - 1)) then d.set i (getRow d (i - 1))
    else if ¬zeroRow (getRow d (i + 1)) then d.set i (getRow d (i + 1))
    else d
  else d

/-- The forward interior pass (`for i in range(1, n - 1)`), here through
the first `m` interior indices `1, ..., m`. -/
def fwdPassUpTo (d : List Row) (m : Nat) : List Row :=
  (List.range' 1 m).foldl fixStep d

/-- The backward interior pass
(`for i in reversed(range(1, n - 1))`), over `m, ..., 1`. -/
def bwdPassFrom (d : List Row) (m : Nat) : List Row :=
  (List.range' 1 m).reverse.foldl fixStep d

/-- Break condition of the repair loop: no interior zero row remains
(`(dirs[1:-1] == 0).all(1).sum() == 0`). -/
def interiorClear (d : List Row) (n : Nat) : Bool :=
  (List.range' 1 (n - 2)).all fun i => !zeroRow (getRow d i)

/-- The bounded outer repair loop (`for _ in range(1, n - 1)`, so at most
`n - 2` rounds), with the forward pass, break check, backward pass and
break check of the source body. -/
def outerLoop (n : Nat) : Nat → List Row → List Row
  | 0, d => d
  | fuel + 1, d =>
    let d1 := fwdPassUpTo d (n - 2)
    if interiorClear d1 n then d1
    else
      let d2 := bwdPassFrom d1 (n - 2)
      if interiorClear d2 n then d2
      else outerLoop n fuel d2

/-- The two final edge repairs of the source
(`if (dirs[0] == 0).all(): dirs[0] = dirs[1]` and
`if (dirs[-1] == 0).all(): dirs[-1] = dirs[-2]`), on an array of length
`n`. -/
def edgeFixes (n : Nat) (d : List Row) : List Row :=
  let d1 := if zeroRow (getRow d 0) then d.set 0 (getRow d 1) else d
  if zeroRow (getRow d1 (n - 1)) then d1.set (n - 1) (getRow d1 (n - 2)) else d1

/-- Embedding of `fix_zero_directions`: early return when no row is zero,
`ValueError` when all are, else the interior repair loop followed by the
edge repairs. -/
def fix_zero_directions (dirs : List Row) : Except String (List Row) :=
  let n := dirs.length
  if countZeroRows dirs = 0 then .ok dirs
  else if countZeroRows dirs = n then .error "All elements are zero."
  else .ok (edgeFixes n (outerLoop n (n - 2) dirs))

end Odr

namespace Odr

/-! ### Theorems for C1 -/

/-- C1, status code_bug, evaluation at the failing input.  The claim says the
geometries come back sorted ascending by their declared `s` regardless of
document order; the source computes `geometry_element_distances.argsort()`
but discards the result, so the document order is returned unchanged.  Here a
document lists a segment with `s = 5` (at x-offset 100) before a segment with
`s = 0` (at x-offset 200): the result keeps that order, and differs from the
`s`-ascending order the claim (and the dangling `argsort` call) intend. -/
theorem c1_reference_line_geometries_keep_document_order :
    reference_line_geometries
        [⟨5, 100, 0, 0, 1, GeomSpec.line⟩, ⟨0, 200, 0, 0, 1, GeomSpec.line⟩]
      = [Geometry.line 100 0 0 1, Geometry.line 200 0 0 1]
    ∧ reference_line_geometries
        [⟨5, 100, 0, 0, 1, GeomSpec.line⟩, ⟨0, 200, 0, 0, 1, GeomSpec.line⟩]
      ≠ [Geometry.line 200 0 0 1, Geometry.line 100 0 0 1] := by
  constructor
  · rfl
  · decide

/-! ### Theorems for C2 -/

/-- Helper: the fallback logic of `laneSectionRange`, with the two repeated
degenerate checks collapsed (the second check never fires, since after the
first one the start is strictly below the end). -/
theorem laneSectionRange_spec (L s0 e0 : ℚ) :
    laneSectionRange L s0 e0 =
      ((if s0 ≥ (if e0 > L then L else e0)
        then (if e0 > L then L else e0) - 1/10 else s0),
       (if e0 > L then L else e0)) := by
  by_cases hs : s0 ≥ (if e0 > L then L else e0)
  · simp only [laneSectionRange, if_pos hs]
    rw [if_neg (by linarith)]
  · simp only [laneSectionRange, if_neg hs]

/-- Helper: the range produced for section `i` in terms of the declared
boundaries. -/
theorem partition_lane_sections_ranges_getD (ds : List ℚ) (L : ℚ) (i : Nat)
    (hi : i < ds.length) :
    (partition_lane_sections_ranges ds L).getD i (0, 0)
      = laneSectionRange L ((ds ++ [L]).getD i 0) ((ds ++ [L]).getD (i + 1) 0) := by
  unfold partition_lane_sections_ranges
  rw [List.getD_eq_getElem?_getD, List.getElem?_map, List.getElem?_range hi]
  rfl

/-- C2, counterexample.  The claim says the degenerate-range fallback shrinks
the range *end* by the 0.1 epsilon.  On the declared boundaries `[0, 5]` with
reference-line length 5, the second section's declared range is `[5, 5)`
(empty); the source leaves the end at 5 and moves the *start* to `5 - 0.1`,
so the produced pair is `(49/10, 5)` and not the end-shrunk `(5, 49/10)`. -/
theorem c2_fallback_counterexample :
    partition_lane_sections_ranges [0, 5] 5 = [(0, 5), (49/10, 5)]
    ∧ (partition_lane_sections_ranges [0, 5] 5).getD 1 (0, 0) ≠ (5, 49/10) := by
  have h : partition_lane_sections_ranges [0, 5] 5 = [(0, 5), (49/10, 5)] := by
    norm_num [partition_lane_sections_ranges, laneSectionRange, List.range_succ]
  refine ⟨h, ?_⟩
  rw [h]
  simp only [List.getD, List.getElem?_cons_succ, List.getElem?_cons_zero, Option.getD_some,
    ne_eq, Prod.mk.injEq]
  norm_num

/-- C2, amended.  Whenever the declared range of a lane section is empty or
inverted after the end clamp (start `≥` end), the partition falls back by
moving the range *start* to 0.1 below the clamped end, keeping the end,
which yields a non-empty range of length 0.1. -/
theorem c2_degenerate_range_fallback
    (ds : List ℚ) (L : ℚ) (i : Nat) (hi : i < ds.length)
    (hdeg : sectionStart ds L i ≥ sectionClampedEnd ds L i) :
    (partition_lane_sections_ranges ds L).getD i (0, 0)
        = (sectionClampedEnd ds L i - 1/10, sectionClampedEnd ds L i)
    ∧ sectionClampedEnd ds L i - 1/10 < sectionClampedEnd ds L i := by
  refine ⟨?_, by linarith⟩
  rw [partition_lane_sections_ranges_getD ds L i hi, laneSectionRange_spec]
  unfold sectionStart sectionClampedEnd at hdeg
  unfold sectionClampedEnd
  rw [if_pos hdeg]

/-- C2, witness for `c2_degenerate_range_fallback` at the concrete input of
the counterexample (`ds = [0, 5]`, `L = 5`, `i = 1`). -/
theorem c2_degenerate_range_fallback_witness :
    (partition_lane_sections_ranges [0, 5] 5).getD 1 (0, 0)
        = (sectionClampedEnd [0, 5] 5 1 - 1/10, sectionClampedEnd [0, 5] 5 1)
    ∧ sectionClampedEnd [0, 5] 5 1 - 1/10 < sectionClampedEnd [0, 5] 5 1 :=
  c2_degenerate_range_fallback [0, 5] 5 1 (by norm_num)
    (by norm_num [sectionStart, sectionClampedEnd])

/-! ### Theorems for C5 -/

/-- C5, counterexample.  The claim says the traffic-flow line keeps the
centre-line order only when the lane id is negative under right-hand
traffic, and is reversed otherwise.  A lane with id `1` under left-hand
traffic keeps the order too: `(id < 0) != (orientation is RIGHT)` is
`false != false = false`, so the source does not flip. -/
theorem c5_traffic_flow_line_counterexample :
    traffic_flow_line ⟨1, TrafficOrientation.left, [(0, 0, 0), (1, 0, 0)]⟩
      = [(0, 0, 0), (1, 0, 0)]
    ∧ traffic_flow_line ⟨1, TrafficOrientation.left, [(0, 0, 0), (1, 0, 0)]⟩
      ≠ [(1, 0, 0), (0, 0, 0)] := by
  constructor
  · rfl
  · decide

/-- C5, amended.  The traffic-flow line keeps the centre-line point order
exactly when the sign of the lane id matches the traffic rule: a negative id
under right-hand traffic, or a non-negative id under left-hand traffic.  In
the two remaining cases the point order is reversed. -/
theorem c5_traffic_flow_line_cases (l : LaneFlow) :
    ((l.id < 0 ∧ l.traffic_orientation = TrafficOrientation.right)
        ∨ (0 ≤ l.id ∧ l.traffic_orientation = TrafficOrientation.left) →
      traffic_flow_line l = l.centre_line)
    ∧ ((l.id < 0 ∧ l.traffic_orientation = TrafficOrientation.left)
        ∨ (0 ≤ l.id ∧ l.traffic_orientation = TrafficOrientation.right) →
      traffic_flow_line l = l.centre_line.reverse) := by
  constructor
  · intro h
    have hop : traffic_flows_in_opposite_direction_to_centre_line l = false := by
      unfold traffic_flows_in_opposite_direction_to_centre_line
      rcases h with ⟨hneg, hor⟩ | ⟨hpos, hor⟩
      · simp [hor, hneg]
      · simp [hor, not_lt.mpr hpos]
    simp [traffic_flow_line, hop]
  · intro h
    have hop : traffic_flows_in_opposite_direction_to_centre_line l = true := by
      unfold traffic_flows_in_opposite_direction_to_centre_line
      rcases h with ⟨hneg, hor⟩ | ⟨hpos, hor⟩
      · simp [hor, hneg]
      · simp [hor, not_lt.mpr hpos]
    simp [traffic_flow_line, hop]

/-- C5, witness for `c5_traffic_flow_line_cases`: a lane with id `-1` under
right-hand traffic keeps the centre-line order. -/
theorem c5_traffic_flow_line_cases_witness :
    traffic_flow_line ⟨-1, TrafficOrientation.right, [(0, 0, 0), (1, 0, 0)]⟩
      = [(0, 0, 0), (1, 0, 0)] :=
  (c5_traffic_flow_line_cases ⟨-1, TrafficOrientation.right, [(0, 0, 0), (1, 0, 0)]⟩).1
    (Or.inl ⟨by decide, rfl⟩)

/-! ### Theorems for C8 -/

/-- C8, counterexample.  The claim says every lane declaring both width and
border elements raises the unsupported-representation error when its
boundary line is computed.  But the guard `if self.lane_section_reference_line
is None: return None` comes first: a lane with both representations and no
reference line returns `None` without raising. -/
theorem c8_both_representations_counterexample :
    get_boundary_line_segment ⟨none, [⟨0, 1, 0, 0, 0⟩], [⟨0, 1, 0, 0, 0⟩], "driving"⟩
      = BoundaryOutcome.noGeometry
    ∧ get_boundary_line_segment ⟨none, [⟨0, 1, 0, 0, 0⟩], [⟨0, 1, 0, 0, 0⟩], "driving"⟩
      ≠ BoundaryOutcome.bothWidthsAndBordersError := by
  exact ⟨rfl, by decide⟩

/-- C8, amended.  For every lane whose lane-section reference line is present
with at least 2 points, computing the boundary line raises the
unsupported-representation error exactly when the lane declares both width
and border elements, or declares neither while its resolved type is
non-null; in particular a lane declaring exactly one of the two
representations never reaches either unsupported-representation error. -/
theorem c8_unsupported_representation (l : LaneBoundaryInput) (ref : List (ℚ × ℚ))
    (href : l.lane_section_reference_line = some ref) (hlen : 2 ≤ ref.length) :
    (get_boundary_line_segment l = BoundaryOutcome.bothWidthsAndBordersError
      ↔ (l.widths ≠ [] ∧ l.borders ≠ []))
    ∧ (get_boundary_line_segment l = BoundaryOutcome.neitherWidthsNorBordersError
      ↔ (l.widths = [] ∧ l.borders = [] ∧ laneType l.declaredType ≠ none)) := by
  by_cases hw : l.widths = [] <;> by_cases hb : l.borders = []
  · rcases hty : laneType l.declaredType with _ | t <;>
      simp [get_boundary_line_segment, href, not_lt.mpr hlen, hw, hb, hty]
  · simp [get_boundary_line_segment, href, not_lt.mpr hlen, hw, hb]
  · simp [get_boundary_line_segment, href, not_lt.mpr hlen, hw, hb]
  · simp [get_boundary_line_segment, href, not_lt.mpr hlen, hw, hb]

/-- C8, witness for `c8_unsupported_representation`: a lane with a two-point
reference line declaring only widths reaches neither unsupported error. -/
theorem c8_unsupported_representation_witness :
    (get_boundary_line_segment
        ⟨some [(0, 0), (1, 0)], [⟨0, 1, 0, 0, 0⟩], [], "driving"⟩
      = BoundaryOutcome.bothWidthsAndBordersError
      ↔ ([⟨0, 1, 0, 0, 0⟩] ≠ ([] : List WidthRecord) ∧ ([] : List WidthRecord) ≠ []))
    ∧ (get_boundary_line_segment
        ⟨some [(0, 0), (1, 0)], [⟨0, 1, 0, 0, 0⟩], [], "driving"⟩
      = BoundaryOutcome.neitherWidthsNorBordersError
      ↔ ([⟨0, 1, 0, 0, 0⟩] = ([] : List WidthRecord) ∧ ([] : List WidthRecord) = []
          ∧ laneType "driving" ≠ none)) :=
  c8_unsupported_representation _ _ rfl (by norm_num)

/-! ### Theorems for C10 -/

/-- C10, counterexample.  The claim says every lane with neither widths nor
borders and declared type `"none"` gets the lane-section reference line back
without any error.  A lane whose reference line has a single point raises
`IndexError` (zero-length reference line) first. -/
theorem c10_single_point_counterexample :
    get_boundary_line_segment ⟨some [(0, 0)], [], [], "none"⟩
      = BoundaryOutcome.zeroLengthReferenceLineError
    ∧ get_boundary_line_segment ⟨some [(0, 0)], [], [], "none"⟩
      ≠ BoundaryOutcome.referenceLine [(0, 0)] := by
  exact ⟨rfl, by decide⟩

/-- C10, amended.  For every lane declaring neither width nor border
elements, with declared type `"none"` and a present lane-section reference
line of at least 2 points, `get_boundary_line_segment` returns that
reference line itself without reaching any error branch. -/
theorem c10_null_type_returns_reference_line (l : LaneBoundaryInput)
    (ref : List (ℚ × ℚ))
    (href : l.lane_section_reference_line = some ref) (hlen : 2 ≤ ref.length)
    (hw : l.widths = []) (hb : l.borders = []) (ht : l.declaredType = "none") :
    get_boundary_line_segment l = BoundaryOutcome.referenceLine ref := by
  simp [get_boundary_line_segment, href, not_lt.mpr hlen, hw, hb, laneType, ht]

/-- C10, witness for `c10_null_type_returns_reference_line` at a concrete
two-point reference line. -/
theorem c10_null_type_returns_reference_line_witness :
    get_boundary_line_segment ⟨some [(0, 0), (1, 0)], [], [], "none"⟩
      = BoundaryOutcome.referenceLine [(0, 0), (1, 0)] :=
  c10_null_type_returns_reference_line _ _ rfl (by norm_num) rfl rfl rfl

/-! ### Theorems for C9 -/

/-- C9, confirmed.  For every lane, the successor and predecessor id lists
never contain the id 0 (the source filters `int_id != 0`), and for the
centre lane (id 0) both lists are empty (the source returns early). -/
theorem c9_no_zero_in_connectivity (l : LaneConnectivity) :
    (0 : ℤ) ∉ lane_successor_ids l
    ∧ (0 : ℤ) ∉ lane_predecessor_ids l
    ∧ (l.id = 0 → lane_successor_ids l = [] ∧ lane_predecessor_ids l = []) := by
  have hfilter : ∀ xs : List ℤ, (0 : ℤ) ∉ xs.filter (fun i => i ≠ 0) := by
    intro xs hmem
    have h := (List.mem_filter.mp hmem).2
    simp at h
  unfold lane_successor_ids lane_predecessor_ids get_connecting_ids
  rcases l.link with _ | link
  · simp
  · by_cases hid : l.id = 0
    · simp [hid]
    · simp [hid, List.mem_filter]

/-- C9, witness for `c9_no_zero_in_connectivity` at a concrete centre lane
whose link element declares ids that include 0. -/
theorem c9_no_zero_in_connectivity_witness :
    lane_successor_ids ⟨0, some ⟨[1, 0], [0, 2]⟩⟩ = []
    ∧ lane_predecessor_ids ⟨0, some ⟨[1, 0], [0, 2]⟩⟩ = [] :=
  (c9_no_zero_in_connectivity ⟨0, some ⟨[1, 0], [0, 2]⟩⟩).2.2 rfl

/-! ### Theorems for C3 -/

/-- Helper: the accumulator of a max fold never decreases. -/
theorem le_foldl_max (a : ℚ) (l : List ℚ) : a ≤ l.foldl max a := by
  induction l generalizing a with
  | nil => exact le_refl a
  | cons b bs ih => exact le_trans (le_max_left a b) (ih (max a b))

/-- Helper: every member of the folded list is below the max fold. -/
theorem mem_le_foldl_max (x : ℚ) :
    ∀ (l : List ℚ), x ∈ l → ∀ a : ℚ, x ≤ l.foldl max a
  | [], hx, _ => absurd hx (List.not_mem_nil x)
  | b :: bs, hx, a => by
    rcases List.mem_cons.mp hx with rfl | hmem
    · exact le_trans (le_max_right a x) (le_foldl_max (max a x) bs)
    · exact mem_le_foldl_max x bs hmem (max a b)

/-- Helper: every member of a list is below its `pyMax`. -/
theorem le_pyMax {x : ℚ} {s : List ℚ} (hx : x ∈ s) : x ≤ pyMax s := by
  match s, hx with
  | a :: as, hx =>
    rcases List.mem_cons.mp hx with rfl | hmem
    · exact le_foldl_max x as
    · exact mem_le_foldl_max x as hmem a

/-- Helper: `u_array_from_arc_lengths` with its let-bindings inlined. -/
theorem u_array_from_arc_lengths_spec
    (solver : CubicPolynom → ℚ → List ℚ → IvpSolution) (p : CubicPolynom)
    (s : List ℚ) :
    u_array_from_arc_lengths solver p s =
      match pyMin s with
      | none => .error "zero-size array to reduction operation minimum"
      | some m =>
        if m ≠ 0 then .error "s_array contains negative values"
        else if 0 < pyMax s ∧ ¬s.Chain' (· < ·) then
          .error "Values in t_eval are not properly sorted."
        else if (solver p (pyMax s) s).t ≠ s then
          .error "failed to solve the differential equation"
        else .ok (solver p (pyMax s) s).y := rfl

/-- C3, confirmed.  For every sample-distance array containing some positive
distance (a degenerate all-zero span leaves the behaviour to unspecified
internals of the external ODE solver, so it is excluded), the conversion
errors whenever the array is not sorted strictly ascending with a zero
minimum; errors whenever the solved trajectory was not evaluated at every
requested distance (`solution.t` differs from the requested array); and for
every array satisfying both conditions returns the solver's `y` values
without error. -/
theorem c3_u_array_error_handling
    (solver : CubicPolynom → ℚ → List ℚ → IvpSolution) (p : CubicPolynom)
    (s : List ℚ) (hpos : ∃ x ∈ s, 0 < x) :
    (¬(s.Chain' (· < ·) ∧ pyMin s = some 0) →
      ∃ e, u_array_from_arc_lengths solver p s = .error e)
    ∧ (s.Chain' (· < ·) → pyMin s = some 0 →
        ((solver p (pyMax s) s).t ≠ s →
          ∃ e, u_array_from_arc_lengths solver p s = .error e)
        ∧ ((solver p (pyMax s) s).t = s →
          u_array_from_arc_lengths solver p s
            = .ok (solver p (pyMax s) s).y)) := by
  obtain ⟨x, hxs, hx⟩ := hpos
  have htf : 0 < pyMax s := lt_of_lt_of_le hx (le_pyMax hxs)
  constructor
  · intro hnot
    rcases hmin : pyMin s with _ | m
    · exact ⟨"zero-size array to reduction operation minimum",
        by simp only [u_array_from_arc_lengths_spec, hmin]⟩
    · by_cases hm : m = 0
      · subst hm
        have hchain : ¬s.Chain' (· < ·) := fun hc => hnot ⟨hc, hmin⟩
        refine ⟨"Values in t_eval are not properly sorted.", ?_⟩
        simp only [u_array_from_arc_lengths_spec, hmin]
        rw [if_neg (by simp), if_pos ⟨htf, hchain⟩]
      · refine ⟨"s_array contains negative values", ?_⟩
        simp only [u_array_from_arc_lengths_spec, hmin]
        rw [if_pos hm]
  · intro hchain hmin
    constructor
    · intro hne
      refine ⟨"failed to solve the differential equation", ?_⟩
      simp only [u_array_from_arc_lengths_spec, hmin]
      rw [if_neg (by simp), if_neg (by simp [hchain]), if_pos hne]
    · intro heq
      simp only [u_array_from_arc_lengths_spec, hmin]
      rw [if_neg (by simp), if_neg (by simp [hchain]), if_neg (by simp [heq])]

/-- C3, witness for `c3_u_array_error_handling`: the sorted-from-zero array
`[0, 2]` together with a solver that reports back the requested distances
yields the solver's `y` values without error. -/
theorem c3_u_array_error_handling_witness :
    u_array_from_arc_lengths halfSolver ⟨0, 0, 0, 0⟩ [0, 2]
      = .ok ((halfSolver ⟨0, 0, 0, 0⟩ (pyMax [0, 2]) [0, 2]).y) :=
  ((c3_u_array_error_handling halfSolver ⟨0, 0, 0, 0⟩ [0, 2]
      ⟨2, by simp, by norm_num⟩).2
    (by simp [List.chain'_cons, List.chain'_singleton])
    (by simp [pyMin, min_def])).2 rfl

/-! ### Theorems for C4 -/

/-- Helper: deduplication only keeps rows of the input. -/
theorem mem_of_mem_dedupFirstAux :
    ∀ (seen l : List (ℚ × ℚ)) (x : ℚ × ℚ), x ∈ dedupFirstAux seen l → x ∈ l
  | _, [], x, hx => absurd hx (List.not_mem_nil x)
  | seen, p :: rest, x, hx => by
    by_cases hp : p ∈ seen
    · simp only [dedupFirstAux, if_pos hp] at hx
      exact List.mem_cons_of_mem p (mem_of_mem_dedupFirstAux seen rest x hx)
    · simp only [dedupFirstAux, if_neg hp] at hx
      rcases List.mem_cons.mp hx with rfl | h
      · exact List.mem_cons_self x rest
      · exact List.mem_cons_of_mem p (mem_of_mem_dedupFirstAux (p :: seen) rest x h)

/-- Helper: the deduplicated list has no duplicates and avoids the seen
accumulator. -/
theorem dedupFirstAux_nodup :
    ∀ (seen l : List (ℚ × ℚ)),
      (dedupFirstAux seen l).Nodup ∧ ∀ x ∈ dedupFirstAux seen l, x ∉ seen
  | _, [] => ⟨List.nodup_nil, fun x hx => absurd hx (List.not_mem_nil x)⟩
  | seen, p :: rest => by
    by_cases hp : p ∈ seen
    · simpa only [dedupFirstAux, if_pos hp] using dedupFirstAux_nodup seen rest
    · obtain ⟨hnd, hout⟩ := dedupFirstAux_nodup (p :: seen) rest
      simp only [dedupFirstAux, if_neg hp]
      constructor
      · refine List.nodup_cons.mpr ⟨fun hmem => ?_, hnd⟩
        exact hout p hmem (List.mem_cons_self p seen)
      · intro x hx
        rcases List.mem_cons.mp hx with rfl | h
        · exact hp
        · exact fun hxseen => hout x h (List.mem_cons_of_mem p hxseen)

/-- Helper: `dedupFirst` produces pairwise-distinct vertices. -/
theorem dedupFirst_nodup (l : List (ℚ × ℚ)) : (dedupFirst l).Nodup :=
  (dedupFirstAux_nodup [] l).1

/-- Helper: cumulative distances have one entry per vertex. -/
theorem cumulativeDistances_length (dist : (ℚ × ℚ) → (ℚ × ℚ) → ℚ) :
    ∀ l : List (ℚ × ℚ), (cumulativeDistances dist l).length = l.length
  | [] => rfl
  | [_] => rfl
  | p :: q :: rest => by
    simp only [cumulativeDistances, List.length_cons, List.length_map]
    rw [cumulativeDistances_length dist (q :: rest)]
    simp

/-- Helper: cumulative distances start at 0. -/
theorem cumulativeDistances_head (dist : (ℚ × ℚ) → (ℚ × ℚ) → ℚ) :
    ∀ l : List (ℚ × ℚ), l ≠ [] → (cumulativeDistances dist l).head? = some 0
  | [], h => absurd rfl h
  | [_], _ => rfl
  | _ :: _ :: _, _ => rfl

/-- Helper: with a norm that is positive on distinct points and
pairwise-distinct adjacent vertices, the cumulative distances are strictly
increasing. -/
theorem cumulativeDistances_chain (dist : (ℚ × ℚ) → (ℚ × ℚ) → ℚ)
    (hd : ∀ p q : ℚ × ℚ, p ≠ q → 0 < dist p q) :
    ∀ l : List (ℚ × ℚ), l.Chain' (· ≠ ·) →
      (cumulativeDistances dist l).Chain' (· < ·)
  | [], _ => List.chain'_nil
  | [_], _ => List.chain'_singleton 0
  | p :: q :: rest, hchain => by
    have hpq : p ≠ q := (List.chain'_cons.mp hchain).1
    have htail := cumulativeDistances_chain dist hd (q :: rest)
      (List.chain'_cons.mp hchain).2
    simp only [cumulativeDistances]
    apply List.chain'_cons'.mpr
    constructor
    · intro b hb
      rw [List.head?_map, cumulativeDistances_head dist (q :: rest) (by simp)] at hb
      have hb2 : dist p q = b := by simpa using hb
      rw [← hb2]
      exact hd p q hpq
    · rw [List.chain'_map]
      exact htail.imp fun a b hab => by simpa using hab

/-- Helper: in a strictly increasing chain, the head is below the last
element of the tail. -/
theorem lt_getLastD_of_chain :
    ∀ (l : List ℚ) (x : ℚ), (x :: l).Chain' (· < ·) → l ≠ [] → x < l.getLastD 0
  | [], _, _, h => absurd rfl h
  | [y], x, hc, _ => by simpa using (List.chain'_cons.mp hc).1
  | y :: z :: zs, x, hc, _ => by
    have h1 : x < y := (List.chain'_cons.mp hc).1
    have h2 := lt_getLastD_of_chain (z :: zs) y (List.chain'_cons.mp hc).2 (by simp)
    rw [List.getLastD_cons] at h2
    rw [List.getLastD_cons, List.getLastD_cons]
    exact lt_trans h1 h2

/-- Helper: linear interpolation at parameter 0 returns the first point. -/
theorem lerp_zero (a b : ℚ × ℚ) : lerp a b 0 = a := by
  unfold lerp
  have h1 : a.1 + 0 * (b.1 - a.1) = a.1 := by ring
  have h2 : a.2 + 0 * (b.2 - a.2) = a.2 := by ring
  rw [h1, h2]

/-- Helper: linear interpolation at parameter 1 returns the second point. -/
theorem lerp_one (a b : ℚ × ℚ) : lerp a b 1 = b := by
  unfold lerp
  have h1 : a.1 + 1 * (b.1 - a.1) = b.1 := by ring
  have h2 : a.2 + 1 * (b.2 - a.2) = b.2 := by ring
  rw [h1, h2]

/-- Helper: the interpolant evaluated at the first knot returns the first
data point. -/
theorem interpLinear_head (x0 x1 : ℚ) (xs : List ℚ) (y0 y1 : ℚ × ℚ)
    (ys : List (ℚ × ℚ)) (hlen : xs.length = ys.length) (h01 : x0 ≤ x1) :
    interpLinear (x0 :: x1 :: xs) (y0 :: y1 :: ys) x0 = y0 := by
  have hq : (x0 - x0) / (x1 - x0) = 0 := by rw [sub_self, zero_div]
  cases xs with
  | nil =>
    cases ys with
    | nil => simp only [interpLinear]; rw [hq, lerp_zero]
    | cons b bs => simp at hlen
  | cons a as =>
    cases ys with
    | nil => simp at hlen
    | cons b bs =>
      simp only [interpLinear]
      rw [if_pos h01, hq, lerp_zero]

/-- Helper: the interpolant evaluated at the last knot returns the last
data point. -/
theorem interpLinear_last (xs : List ℚ) : ∀ ys : List (ℚ × ℚ),
    xs.length = ys.length → 2 ≤ xs.length → xs.Chain' (· < ·) →
    interpLinear xs ys (xs.getLastD 0) = ys.getLastD (0, 0) := by
  induction xs with
  | nil => intro ys _ h2 _; simp at h2
  | cons x0 rest ih =>
    intro ys hlen h2 hc
    cases rest with
    | nil => simp at h2
    | cons x1 rest2 =>
      cases ys with
      | nil => simp at hlen
      | cons y0 ys1 =>
        cases ys1 with
        | nil => simp at hlen
        | cons y1 ys2 =>
          cases rest2 with
          | nil =>
            cases ys2 with
            | cons b bs => simp at hlen
            | nil =>
              have hne : x1 - x0 ≠ 0 :=
                sub_ne_zero.mpr (ne_of_gt (List.chain'_cons.mp hc).1)
              simp only [List.getLastD_cons, List.getLastD_nil]
              simp only [interpLinear]
              rw [div_self hne, lerp_one]
          | cons a as =>
            cases ys2 with
            | nil => simp at hlen
            | cons b bs =>
              have hchain1 : (x1 :: a :: as).Chain' (· < ·) :=
                (List.chain'_cons.mp hc).2
              have hlt : x1 < (a :: as).getLastD 0 :=
                lt_getLastD_of_chain (a :: as) x1 hchain1 (by simp)
              rw [List.getLastD_cons] at hlt
              have hrec := ih (y1 :: b :: bs) (by simpa using hlen) (by simp) hchain1
              simp only [List.getLastD_cons] at hrec ⊢
              simp only [interpLinear]
              rw [if_neg (not_le.mpr hlt)]
              exact hrec

/-- Helper: the arange grid below a stop smaller than one step has fewer
than 2 entries. -/
theorem arangeQ_short (total res : ℚ) (hres : 0 < res) (h : total < res) :
    (arangeQ 0 total res).length < 2 := by
  have h1 : (total - 0) / res ≤ 1 := by
    rw [sub_zero, div_le_one hres]; linarith
  have h2 : Int.ceil ((total - 0) / res) ≤ (1 : ℤ) := by
    rw [Int.ceil_le]
    push_cast
    linarith
  have h3 : (Int.ceil ((total - 0) / res)).toNat ≤ 1 := by
    rw [Int.toNat_le]
    exact_mod_cast h2
  rw [arangeQ, if_pos hres]
  rw [List.length_map, List.length_range]
  omega

/-- Helper: `interpolate_path` with its let-bindings inlined. -/
theorem interpolate_path_spec (dist : (ℚ × ℚ) → (ℚ × ℚ) → ℚ)
    (path : List (ℚ × ℚ)) (res : ℚ) :
    interpolate_path dist path res =
      if (dedupFirst path).length < 2 then
        .error "x and y arrays must have at least 2 entries"
      else
        .ok ((if (arangeQ 0 (totalChordLength dist path) res).length < 2
              then [0, totalChordLength dist path]
              else arangeQ 0 (totalChordLength dist path) res).map
            (interpLinear (cumulativeDistances dist (dedupFirst path))
              (dedupFirst path))) := rfl

/-- C4, counterexample.  The claim says resampling any input point array at
any positive resolution returns at least 2 points.  An input whose vertices
all coincide leaves a single vertex after deduplication, and the linear
interpolant construction fails (as `interp1d` does with fewer than 2 data
points), so nothing is returned at all. -/
theorem c4_single_point_counterexample :
    interpolate_path taxicab [(0, 0)] 1
      = Except.error "x and y arrays must have at least 2 entries" := by
  rfl

/-- Helper: the taxicab norm is positive on distinct points. -/
theorem taxicab_pos (p q : ℚ × ℚ) (h : p ≠ q) : 0 < taxicab p q := by
  unfold taxicab
  have h1 : 0 ≤ |p.1 - q.1| := abs_nonneg _
  have h2 : 0 ≤ |p.2 - q.2| := abs_nonneg _
  by_contra hc
  push_neg at hc
  have e1 : |p.1 - q.1| = 0 := by linarith
  have e2 : |p.2 - q.2| = 0 := by linarith
  have f1 : p.1 = q.1 := by have := abs_eq_zero.mp e1; linarith
  have f2 : p.2 = q.2 := by have := abs_eq_zero.mp e2; linarith
  exact h (Prod.ext_iff.mpr ⟨f1, f2⟩)

/-- C4, amended.  Whenever the resampler returns (which it does exactly when
at least 2 distinct vertices remain after removing coincident ones), the
result has at least 2 points; and when the total chord length of the
deduplicated path is smaller than one resolution step, the result is exactly
the two endpoints of the (deduplicated) path.  The norm is any function
positive on distinct points, as the Euclidean norm is. -/
theorem c4_resample (dist : (ℚ × ℚ) → (ℚ × ℚ) → ℚ) (path : List (ℚ × ℚ))
    (res : ℚ) (out : List (ℚ × ℚ))
    (hdist : ∀ p q : ℚ × ℚ, p ≠ q → 0 < dist p q) (hres : 0 < res)
    (hok : interpolate_path dist path res = .ok out) :
    2 ≤ out.length
    ∧ (totalChordLength dist path < res →
        out = [(dedupFirst path).headD (0, 0), (dedupFirst path).getLastD (0, 0)]) := by
  rw [interpolate_path_spec] at hok
  by_cases hlen : (dedupFirst path).length < 2
  · rw [if_pos hlen] at hok
    exact absurd hok (by simp)
  · rw [if_neg hlen] at hok
    have hbig := Except.ok.inj hok
    subst hbig
    have hlen2 : 2 ≤ (dedupFirst path).length := not_lt.mp hlen
    constructor
    · by_cases hnd : (arangeQ 0 (totalChordLength dist path) res).length < 2
      · rw [if_pos hnd]
        simp
      · rw [if_neg hnd]
        simpa using not_lt.mp hnd
    · intro htot
      have hshort := arangeQ_short (totalChordLength dist path) res hres htot
      rw [if_pos hshort]
      obtain ⟨v0, v1, vs, hv⟩ :
          ∃ v0 v1 vs, dedupFirst path = v0 :: v1 :: vs := by
        rcases hd : dedupFirst path with _ | ⟨v0, _ | ⟨v1, vs⟩⟩
        · rw [hd] at hlen2; simp at hlen2
        · rw [hd] at hlen2; simp at hlen2
        · exact ⟨v0, v1, vs, rfl⟩
      have hchainNe : (dedupFirst path).Chain' (· ≠ ·) :=
        (dedupFirst_nodup path).chain'
      have hchainLt :
          (cumulativeDistances dist (dedupFirst path)).Chain' (· < ·) :=
        cumulativeDistances_chain dist hdist _ hchainNe
      have hsslen :
          (cumulativeDistances dist (dedupFirst path)).length
            = (dedupFirst path).length := cumulativeDistances_length dist _
      obtain ⟨x0, x1, xs, hss⟩ :
          ∃ x0 x1 xs, cumulativeDistances dist (dedupFirst path)
            = x0 :: x1 :: xs := by
        rcases hs : cumulativeDistances dist (dedupFirst path)
            with _ | ⟨x0, _ | ⟨x1, xs⟩⟩
        · rw [hs] at hsslen; rw [hv] at hsslen; simp at hsslen
        · rw [hs] at hsslen; rw [hv] at hsslen; simp at hsslen
        · exact ⟨x0, x1, xs, rfl⟩
      have hx0 : x0 = 0 := by
        have hh := cumulativeDistances_head dist (dedupFirst path)
          (by rw [hv]; simp)
        rw [hss] at hh
        simpa using hh
      simp only [List.map_cons, List.map_nil]
      have hhead :
          interpLinear (cumulativeDistances dist (dedupFirst path))
            (dedupFirst path) 0 = (dedupFirst path).headD (0, 0) := by
        rw [hss, hv, hx0]
        have hxslen : xs.length = vs.length := by
          rw [hss, hv] at hsslen
          simpa using hsslen
        have h01 : (0 : ℚ) ≤ x1 := by
          rw [hss, hx0] at hchainLt
          exact le_of_lt (List.chain'_cons.mp hchainLt).1
        rw [interpLinear_head 0 x1 xs v0 v1 vs hxslen h01]
        simp
      have hlast :
          interpLinear (cumulativeDistances dist (dedupFirst path))
            (dedupFirst path) (totalChordLength dist path)
            = (dedupFirst path).getLastD (0, 0) := by
        have := interpLinear_last (cumulativeDistances dist (dedupFirst path))
          (dedupFirst path) hsslen (by rw [hsslen]; exact hlen2) hchainLt
        exact this
      rw [hhead, hlast]

/-- Helper: concrete evaluation of the resampler on the witness input (a
two-point path of chord length 3 at resolution 4). -/
theorem interpolate_path_witness_eval :
    interpolate_path taxicab [(0, 0), (3, 0)] 4 = .ok [(0, 0), (3, 0)] := by
  have hdedup : dedupFirst [((0 : ℚ), (0 : ℚ)), (3, 0)] = [(0, 0), (3, 0)] := rfl
  have htax : taxicab ((0 : ℚ), (0 : ℚ)) (3, 0) = 3 := by
    norm_num [taxicab]
  have hcum : cumulativeDistances taxicab [((0 : ℚ), (0 : ℚ)), (3, 0)] = [0, 3] := by
    simp only [cumulativeDistances, List.map_cons, List.map_nil, htax]
    norm_num
  have htot : totalChordLength taxicab [((0 : ℚ), (0 : ℚ)), (3, 0)] = 3 := by
    rw [totalChordLength, hdedup, hcum]
    rfl
  have har : arangeQ 0 3 4 = [0] := by
    rw [arangeQ, if_pos (by norm_num : (0 : ℚ) < 4)]
    have hceil1 : Int.ceil (((3 : ℚ) - 0) / 4) = 1 := by
      rw [Int.ceil_eq_iff]
      norm_num
    rw [hceil1]
    rw [show (1 : ℤ).toNat = 1 from rfl]
    rw [show List.range 1 = [0] from rfl]
    simp only [List.map_cons, List.map_nil]
    norm_num
  rw [interpolate_path_spec, hdedup, htot, hcum, har]
  rw [if_neg (by norm_num)]
  rw [if_pos (by norm_num)]
  simp only [List.map_cons, List.map_nil]
  norm_num [interpLinear, lerp]

/-- C4, witness for `c4_resample`: the two-point path from the origin to
`(3, 0)` resampled at resolution 4 (larger than the total chord length 3)
returns exactly the two endpoints. -/
theorem c4_resample_witness :
    2 ≤ ([((0 : ℚ), (0 : ℚ)), (3, 0)] : List (ℚ × ℚ)).length
    ∧ (totalChordLength taxicab [(0, 0), (3, 0)] < 4 →
        ([((0 : ℚ), (0 : ℚ)), (3, 0)] : List (ℚ × ℚ))
          = [(dedupFirst [(0, 0), (3, 0)]).headD (0, 0),
             (dedupFirst [(0, 0), (3, 0)]).getLastD (0, 0)]) :=
  c4_resample taxicab [(0, 0), (3, 0)] 4 [(0, 0), (3, 0)] taxicab_pos
    (by norm_num) interpolate_path_witness_eval

/-! ### Theorems for C6 -/

/-- Helper: writing one predecessor field leaves other sections alone. -/
theorem setPredecessor_ne (st : LinkState) (k k2 : SectionKey)
    (v : SectionKey × ConnectionPosition) (h : k2 ≠ k) :
    setPredecessor st k v k2 = st k2 := by
  simp [setPredecessor, h]

/-- Helper: the written predecessor field. -/
theorem setPredecessor_self (st : LinkState) (k : SectionKey)
    (v : SectionKey × ConnectionPosition) :
    (setPredecessor st k v k).predecessor_data = some v := by
  simp [setPredecessor]

/-- Helper: writing one successor field leaves other sections alone. -/
theorem setSuccessor_ne (st : LinkState) (k k2 : SectionKey)
    (v : SectionKey × ConnectionPosition) (h : k2 ≠ k) :
    setSuccessor st k v k2 = st k2 := by
  simp [setSuccessor, h]

/-- Helper: the written successor field. -/
theorem setSuccessor_self (st : LinkState) (k : SectionKey)
    (v : SectionKey × ConnectionPosition) :
    (setSuccessor st k v k).successor_data = some v := by
  simp [setSuccessor]

/-- Helper: writing a successor field never changes any predecessor field. -/
theorem setSuccessor_pred (st : LinkState) (k k2 : SectionKey)
    (v : SectionKey × ConnectionPosition) :
    (setSuccessor st k v k2).predecessor_data = (st k2).predecessor_data := by
  by_cases h : k2 = k
  · subst h; simp [setSuccessor]
  · simp [setSuccessor, h]

/-- Helper: writing a predecessor field never changes any successor field. -/
theorem setPredecessor_succ (st : LinkState) (k k2 : SectionKey)
    (v : SectionKey × ConnectionPosition) :
    (setPredecessor st k v k2).successor_data = (st k2).successor_data := by
  by_cases h : k2 = k
  · subst h; simp [setPredecessor]
  · simp [setPredecessor, h]

/-- Helper: the interior-pair loop of one road touches only that road's
sections. -/
theorem interiorFold_other_road (rid : String) :
    ∀ (l : List Nat) (st : LinkState) (k : SectionKey), k.1 ≠ rid →
      l.foldl (interiorStep rid) st k = st k := by
  intro l
  induction l with
  | nil => intro st k _; rfl
  | cons i is ih =>
    intro st k hk
    rw [List.foldl_cons, ih _ k hk]
    rw [interiorStep, setPredecessor_ne _ _ _ _ (fun he => hk (by rw [he])),
      setSuccessor_ne _ _ _ _ (fun he => hk (by rw [he]))]

/-- Helper: the interior-pair loop never writes the predecessor field of
section 0 (predecessors are only written at indices `i + 1`). -/
theorem interiorFold_pred_zero (rid : String) :
    ∀ (l : List Nat) (st : LinkState),
      (l.foldl (interiorStep rid) st (rid, 0)).predecessor_data
        = (st (rid, 0)).predecessor_data := by
  intro l
  induction l with
  | nil => intro st; rfl
  | cons i is ih =>
    intro st
    rw [List.foldl_cons, ih]
    rw [interiorStep, setPredecessor_ne _ _ _ _ (by simp), setSuccessor_pred]

/-- C6, confirmed.  In a two-road arena where road A declares successor
`(B, BEGINNING)` and road B declares predecessor `(A, END)`, the linking
pass succeeds, and afterwards the last lane section of A has B's first lane
section as successor at contact point BEGINNING, while the first lane
section of B has A's last lane section as predecessor at contact point END -
reciprocal links with consistent contact points. -/
theorem c6_reciprocal_linking (idA idB : String) (nA nB : Nat)
    (_hA1 : 1 ≤ nA) (_hB1 : 1 ≤ nB) (hne : idA ≠ idB) :
    ∃ st : LinkState,
      link_roads
          [⟨idA, nA, none, some (idB, ConnectionPosition.beginning)⟩,
           ⟨idB, nB, some (idA, ConnectionPosition.end_), none⟩] = .ok st
      ∧ (st (idA, nA - 1)).successor_data
          = some ((idB, 0), ConnectionPosition.beginning)
      ∧ (st (idB, 0)).predecessor_data
          = some ((idA, nA - 1), ConnectionPosition.end_) := by
  have hbAB : (idA == idB) = false := beq_eq_false_iff_ne.mpr hne
  have hbA : (idA == idA) = true := beq_self_eq_true idA
  have hbB : (idB == idB) = true := beq_self_eq_true idB
  set RA : RoadSpec := ⟨idA, nA, none, some (idB, ConnectionPosition.beginning)⟩
    with hRA
  set RB : RoadSpec := ⟨idB, nB, some (idA, ConnectionPosition.end_), none⟩
    with hRB
  have hfB : findRoad [RA, RB] idB = some RB := by
    simp [findRoad, List.find?_cons, hRA, hRB, hbAB, hbB]
  have hfA : findRoad [RA, RB] idA = some RA := by
    simp [findRoad, List.find?_cons, hRA, hbA]
  -- the state after road A's pass
  set FA : LinkState :=
    (List.range (nA - 1)).foldl (interiorStep idA) initLinkState with hFA
  set S2 : LinkState :=
    setPredecessor (setSuccessor FA (idA, nA - 1) ((idB, 0), ConnectionPosition.beginning))
      (idB, 0) ((idA, nA - 1), ConnectionPosition.end_) with hS2
  have hstepA : link_lane_sections [RA, RB] RA initLinkState = .ok S2 := by
    simp only [link_lane_sections, hRA, hfB, ConnectionPosition.index]
    rfl
  -- the state after road B's pass
  set S4 : LinkState :=
    setPredecessor (setSuccessor S2 (idA, nA - 1) ((idB, 0), ConnectionPosition.beginning))
      (idB, 0) ((idA, nA - 1), ConnectionPosition.end_) with hS4
  set ST : LinkState := (List.range (nB - 1)).foldl (interiorStep idB) S4 with hST
  have hstepB : link_lane_sections [RA, RB] RB S2 = .ok ST := by
    simp only [link_lane_sections, hRB, hfA, ConnectionPosition.index]
    rfl
  refine ⟨ST, ?_, ?_, ?_⟩
  · simp only [link_roads, link_roads_aux, hstepA, hstepB]
  · have h1 : ST (idA, nA - 1) = S4 (idA, nA - 1) :=
      interiorFold_other_road idB _ S4 (idA, nA - 1) hne
    rw [h1, hS4]
    rw [setPredecessor_succ]
    rw [setSuccessor_self]
  · have h1 : (ST (idB, 0)).predecessor_data = (S4 (idB, 0)).predecessor_data :=
      interiorFold_pred_zero idB _ S4
    rw [h1, hS4, setPredecessor_self]

/-- C6, witness for `c6_reciprocal_linking`: roads "1" (two lane sections,
successor road "2" at its beginning) and "2" (one lane section, predecessor
road "1" at its end). -/
theorem c6_reciprocal_linking_witness :
    ∃ st : LinkState,
      link_roads
          [⟨"1", 2, none, some ("2", ConnectionPosition.beginning)⟩,
           ⟨"2", 1, some ("1", ConnectionPosition.end_), none⟩] = .ok st
      ∧ (st ("1", 2 - 1)).successor_data
          = some (("2", 0), ConnectionPosition.beginning)
      ∧ (st ("2", 0)).predecessor_data
          = some (("1", 2 - 1), ConnectionPosition.end_) :=
  c6_reciprocal_linking "1" "2" 2 1 (by norm_num) (by norm_num) (by decide)

/-! ### Theorems for C7 -/

/-- Helper: writing row `i` yields that row back. -/
theorem getRow_set_self : ∀ (d : List Row) (i : Nat) (v : Row), i < d.length →
    getRow (d.set i v) i = v
  | [], _, _, h => absurd h (by simp)
  | _ :: _, 0, _, _ => rfl
  | _ :: as, i + 1, v, h => getRow_set_self as i v (by simpa using h)

/-- Helper: writing row `i` leaves other rows unchanged. -/
theorem getRow_set_ne : ∀ (d : List Row) (i j : Nat) (v : Row), i ≠ j →
    getRow (d.set i v) j = getRow d j
  | [], _, _, _, _ => rfl
  | _ :: _, 0, 0, _, h => absurd rfl h
  | _ :: _, 0, _ + 1, _, _ => rfl
  | _ :: _, _ + 1, 0, _, _ => rfl
  | _ :: as, i + 1, j + 1, v, h =>
      getRow_set_ne as i j v fun he => h (by rw [he])

/-- Helper: a repair step keeps the number of rows. -/
theorem fixStep_length (d : List Row) (i : Nat) : (fixStep d i).length = d.length := by
  simp only [fixStep]
  split
  · split
    · simp
    · split
      · simp
      · rfl
  · rfl

/-- Helper: a repair step at index `i` leaves other rows unchanged. -/
theorem fixStep_getRow_ne (d : List Row) (i j : Nat) (h : j ≠ i) :
    getRow (fixStep d i) j = getRow d j := by
  simp only [fixStep]
  split
  · split
    · exact getRow_set_ne d i j _ (Ne.symm h)
    · split
      · exact getRow_set_ne d i j _ (Ne.symm h)
      · rfl
  · rfl

/-- Helper: a repair step never zeroes a non-zero row. -/
theorem fixStep_preserves_nonzero (d : List Row) (i j : Nat)
    (h : zeroRow (getRow d j) = false) :
    zeroRow (getRow (fixStep d i) j) = false := by
  by_cases hij : j = i
  · subst hij
    have heq : fixStep d j = d := by
      simp only [fixStep]
      rw [if_neg (by simp [h])]
    rw [heq]
    exact h
  · rw [fixStep_getRow_ne d i j hij]
    exact h

/-- Helper: a non-zero row never turns zero again, whatever a repair step
writes elsewhere; and row `i` itself becomes non-zero when its left
neighbour is non-zero. -/
theorem fixStep_fix_left (d : List Row) (i : Nat) (hi : i < d.length)
    (h : zeroRow (getRow d (i - 1)) = false) :
    zeroRow (getRow (fixStep d i) i) = false := by
  by_cases h0 : zeroRow (getRow d i) = true
  · simp only [fixStep]
    rw [if_pos h0, if_pos (by simp [h]), getRow_set_self d i _ hi]
    exact h
  · exact fixStep_preserves_nonzero d i i (by simpa using h0)

/-- Helper: row `i` becomes non-zero when its right neighbour is non-zero. -/
theorem fixStep_fix_right (d : List Row) (i : Nat) (hi : i < d.length)
    (h : zeroRow (getRow d (i + 1)) = false) :
    zeroRow (getRow (fixStep d i) i) = false := by
  by_cases h0 : zeroRow (getRow d i) = true
  · by_cases hL : zeroRow (getRow d (i - 1)) = true
    · simp only [fixStep]
      rw [if_pos h0, if_neg (by simp [hL]), if_pos (by simp [h]),
        getRow_set_self d i _ hi]
      exact h
    · exact fixStep_fix_left d i hi (by simpa using hL)
  · exact fixStep_preserves_nonzero d i i (by simpa using h0)

/-- Helper: a repair step only rewrites rows it finds zero. -/
theorem fixStep_pres (d : List Row) (i k : Nat)
    (h : zeroRow (getRow d k) = false) :
    getRow (fixStep d i) k = getRow d k := by
  by_cases hk : k = i
  · subst hk
    simp only [fixStep]
    rw [if_neg (by simp [h])]
  · exact fixStep_getRow_ne d i k hk

/-- Helper: unfolds of the forward pass. -/
theorem fwdPassUpTo_zero (d : List Row) : fwdPassUpTo d 0 = d := rfl

/-- Helper: the forward pass through `m + 1` indices is the pass through
`m` followed by the step at `m + 1`. -/
theorem fwdPassUpTo_succ (d : List Row) (m : Nat) :
    fwdPassUpTo d (m + 1) = fixStep (fwdPassUpTo d m) (m + 1) := by
  unfold fwdPassUpTo
  rw [show List.range' 1 (m + 1) = List.range' 1 m ++ [m + 1] by
    rw [List.range'_concat]
    simp [Nat.add_comm]]
  rw [List.foldl_append]
  rfl

/-- Helper: unfolds of the backward pass. -/
theorem bwdPassFrom_zero (d : List Row) : bwdPassFrom d 0 = d := rfl

/-- Helper: the backward pass from `m + 1` is the step at `m + 1` followed
by the pass from `m`. -/
theorem bwdPassFrom_succ (d : List Row) (m : Nat) :
    bwdPassFrom d (m + 1) = bwdPassFrom (fixStep d (m + 1)) m := by
  unfold bwdPassFrom
  rw [show List.range' 1 (m + 1) = List.range' 1 m ++ [m + 1] by
    rw [List.range'_concat]
    simp [Nat.add_comm]]
  rw [List.reverse_append]
  rfl

/-- Helper: the forward pass keeps the number of rows. -/
theorem fwdPassUpTo_length (d : List Row) (m : Nat) :
    (fwdPassUpTo d m).length = d.length := by
  induction m with
  | zero => rfl
  | succ m ih => rw [fwdPassUpTo_succ, fixStep_length, ih]

/-- Helper: the backward pass keeps the number of rows. -/
theorem bwdPassFrom_length : ∀ (m : Nat) (d : List Row),
    (bwdPassFrom d m).length = d.length
  | 0, _ => rfl
  | m + 1, d => by rw [bwdPassFrom_succ, bwdPassFrom_length m, fixStep_length]

/-- Helper: the forward pass through `m` indices touches neither row 0 nor
rows above `m`. -/
theorem fwdPassUpTo_frozen (d : List Row) (m k : Nat) (h : k = 0 ∨ m < k) :
    getRow (fwdPassUpTo d m) k = getRow d k := by
  induction m with
  | zero => rfl
  | succ m ih =>
    rw [fwdPassUpTo_succ, fixStep_getRow_ne _ _ _ (by omega), ih (by omega)]

/-- Helper: the backward pass from `m` touches neither row 0 nor rows
above `m`. -/
theorem bwdPassFrom_frozen : ∀ (m : Nat) (d : List Row) (k : Nat),
    (k = 0 ∨ m < k) → getRow (bwdPassFrom d m) k = getRow d k
  | 0, _, _, _ => rfl
  | m + 1, d, k, h => by
    rw [bwdPassFrom_succ, bwdPassFrom_frozen m _ k (by omega),
      fixStep_getRow_ne _ _ _ (by omega)]

/-- Helper: non-zero rows survive the forward pass. -/
theorem fwdPassUpTo_preserves (d : List Row) (m k : Nat)
    (h : zeroRow (getRow d k) = false) :
    zeroRow (getRow (fwdPassUpTo d m) k) = false := by
  induction m with
  | zero => exact h
  | succ m ih =>
    rw [fwdPassUpTo_succ]
    exact fixStep_preserves_nonzero _ _ _ ih

/-- Helper: non-zero rows are unchanged by the forward pass. -/
theorem fwdPassUpTo_pres (d : List Row) (m k : Nat)
    (h : zeroRow (getRow d k) = false) :
    getRow (fwdPassUpTo d m) k = getRow d k := by
  induction m with
  | zero => rfl
  | succ m ih =>
    rw [fwdPassUpTo_succ, fixStep_pres _ _ _ (by rw [ih]; exact h)]
    exact ih

/-- Helper: non-zero rows are unchanged by the backward pass. -/
theorem bwdPassFrom_pres : ∀ (m : Nat) (d : List Row) (k : Nat),
    zeroRow (getRow d k) = false → getRow (bwdPassFrom d m) k = getRow d k
  | 0, _, _, _ => rfl
  | m + 1, d, k, h => by
    have h1 : getRow (fixStep d (m + 1)) k = getRow d k := fixStep_pres d (m + 1) k h
    rw [bwdPassFrom_succ, bwdPassFrom_pres m _ k (by rw [h1]; exact h), h1]

/-- Helper: after the forward pass through `m` indices, every interior
index up to `m` with some non-zero row at or below it is non-zero. -/
theorem fwdPassUpTo_inv (n : Nat) : ∀ (m : Nat) (d : List Row), d.length = n →
    m ≤ n - 2 → ∀ k, 1 ≤ k → k ≤ m →
    (∃ j, j ≤ k ∧ zeroRow (getRow d j) = false) →
    zeroRow (getRow (fwdPassUpTo d m) k) = false := by
  intro m
  induction m with
  | zero => intro d _ _ k hk1 hk2 _; omega
  | succ m ih =>
    intro d hlen hm k hk1 hk2 hex
    rw [fwdPassUpTo_succ]
    by_cases hkm : k ≤ m
    · exact fixStep_preserves_nonzero _ _ _ (ih d hlen (by omega) k hk1 hkm hex)
    · have hk : k = m + 1 := by omega
      subst hk
      obtain ⟨j, hj, hjnz⟩ := hex
      by_cases hjm : j = m + 1
      · subst hjm
        have hfroz : getRow (fwdPassUpTo d m) (m + 1) = getRow d (m + 1) :=
          fwdPassUpTo_frozen d m (m + 1) (by omega)
        exact fixStep_preserves_nonzero (fwdPassUpTo d m) (m + 1) (m + 1)
          (by rw [hfroz]; exact hjnz)
      · have hdm : zeroRow (getRow (fwdPassUpTo d m) m) = false := by
          by_cases hm0 : m = 0
          · subst hm0
            have hj0 : j = 0 := by omega
            subst hj0
            exact hjnz
          · exact ih d hlen (by omega) m (by omega) (le_refl m) ⟨j, by omega, hjnz⟩
        have hlt : m + 1 < (fwdPassUpTo d m).length := by
          rw [fwdPassUpTo_length, hlen]; omega
        exact fixStep_fix_left _ _ hlt hdm

/-- Helper: after the full forward pass, the top interior row is non-zero
whenever the array has any non-zero row at all. -/
theorem fwdPass_top (n : Nat) (hn : 3 ≤ n) (d : List Row) (hlen : d.length = n)
    (hex : ∃ j, j < n ∧ zeroRow (getRow d j) = false) :
    zeroRow (getRow (fwdPassUpTo d (n - 2)) (n - 2)) = false := by
  obtain ⟨j, hjn, hjnz⟩ := hex
  have h32 : n - 2 = (n - 3) + 1 := by omega
  rw [h32, fwdPassUpTo_succ]
  have hlt : (n - 3) + 1 < (fwdPassUpTo d (n - 3)).length := by
    rw [fwdPassUpTo_length, hlen]; omega
  by_cases hj1 : j ≤ n - 3
  · have hdm : zeroRow (getRow (fwdPassUpTo d (n - 3)) (n - 3)) = false := by
      by_cases h30 : n - 3 = 0
      · rw [h30, fwdPassUpTo_zero]
        have hj0 : j = 0 := by omega
        rw [← hj0]
        exact hjnz
      · exact fwdPassUpTo_inv n (n - 3) d hlen (by omega) (n - 3) (by omega)
          (le_refl _) ⟨j, hj1, hjnz⟩
    exact fixStep_fix_left _ _ hlt hdm
  · by_cases hj2 : j = n - 2
    · have hfroz : getRow (fwdPassUpTo d (n - 3)) ((n - 3) + 1)
          = getRow d ((n - 3) + 1) := fwdPassUpTo_frozen d (n - 3) _ (by omega)
      apply fixStep_preserves_nonzero
      rw [hfroz, ← h32, ← hj2]
      exact hjnz
    · have hj3 : j = n - 1 := by omega
      apply fixStep_fix_right _ _ hlt
      have hfroz : getRow (fwdPassUpTo d (n - 3)) ((n - 3) + 1 + 1)
          = getRow d ((n - 3) + 1 + 1) := fwdPassUpTo_frozen d (n - 3) _ (by omega)
      rw [hfroz, show (n - 3) + 1 + 1 = j by omega]
      exact hjnz

/-- Helper: the backward pass from `m` makes every interior index up to
`m + 1` non-zero, provided row `m + 1` is non-zero on entry. -/
theorem bwdPassFrom_inv (n : Nat) : ∀ (m : Nat) (d : List Row), d.length = n →
    m + 1 < n → zeroRow (getRow d (m + 1)) = false →
    ∀ k, 1 ≤ k → k ≤ m + 1 → zeroRow (getRow (bwdPassFrom d m) k) = false
  | 0, d, _, _, hnz, k, hk1, hk2 => by
    have hk : k = 1 := by omega
    subst hk
    exact hnz
  | m + 1, d, hlen, hlt, hnz, k, hk1, hk2 => by
    rw [bwdPassFrom_succ]
    have hd' : zeroRow (getRow (fixStep d (m + 1)) (m + 1)) = false := by
      apply fixStep_fix_right d (m + 1) (by rw [hlen]; omega)
      exact hnz
    by_cases hk : k ≤ m + 1
    · exact bwdPassFrom_inv n m (fixStep d (m + 1))
        (by rw [fixStep_length]; exact hlen) (by omega) hd' k hk1 hk
    · have hk2' : k = m + 2 := by omega
      subst hk2'
      rw [bwdPassFrom_frozen m _ (m + 2) (by omega)]
      exact fixStep_preserves_nonzero d (m + 1) (m + 2) hnz

/-- Helper: the full backward pass makes every interior row non-zero,
provided the top interior row is non-zero on entry. -/
theorem bwdPass_interior (n : Nat) (hn : 3 ≤ n) (d1 : List Row)
    (hlen : d1.length = n)
    (htop : zeroRow (getRow d1 (n - 2)) = false) :
    ∀ k, 1 ≤ k → k ≤ n - 2 → zeroRow (getRow (bwdPassFrom d1 (n - 2)) k) = false := by
  intro k hk1 hk2
  have h32 : n - 2 = (n - 3) + 1 := by omega
  rw [h32, bwdPassFrom_succ]
  have htop' : zeroRow (getRow d1 ((n - 3) + 1)) = false := by rw [← h32]; exact htop
  have hd' : zeroRow (getRow (fixStep d1 ((n - 3) + 1)) ((n - 3) + 1)) = false :=
    fixStep_preserves_nonzero d1 _ _ htop'
  exact bwdPassFrom_inv n (n - 3) (fixStep d1 ((n - 3) + 1))
    (by rw [fixStep_length]; exact hlen) (by omega) hd' k hk1 (by omega)

/-- Helper: the break condition holds exactly when every interior row is
non-zero. -/
theorem interiorClear_eq_true (d : List Row) (n : Nat) :
    interiorClear d n = true ↔ ∀ k, 1 ≤ k → k ≤ n - 2 → zeroRow (getRow d k) = false := by
  unfold interiorClear
  rw [List.all_eq_true]
  constructor
  · intro h k hk1 hk2
    have := h k (List.mem_range'_1.mpr ⟨hk1, by omega⟩)
    simpa using this
  · intro h i hi
    obtain ⟨hi1, hi2⟩ := List.mem_range'_1.mp hi
    simpa using h i hi1 (by omega)

/-- Helper: the outer repair loop keeps the number of rows. -/
theorem outerLoop_length (n : Nat) : ∀ (fuel : Nat) (d : List Row),
    (outerLoop n fuel d).length = d.length
  | 0, _ => rfl
  | fuel + 1, d => by
    simp only [outerLoop]
    split
    · exact fwdPassUpTo_length d (n - 2)
    · split
      · rw [bwdPassFrom_length, fwdPassUpTo_length]
      · rw [outerLoop_length n fuel _, bwdPassFrom_length, fwdPassUpTo_length]

/-- Helper: non-zero rows are unchanged by the outer repair loop. -/
theorem outerLoop_pres (n : Nat) : ∀ (fuel : Nat) (d : List Row) (k : Nat),
    zeroRow (getRow d k) = false → getRow (outerLoop n fuel d) k = getRow d k
  | 0, _, _, _ => rfl
  | fuel + 1, d, k, h => by
    simp only [outerLoop]
    have h1 : getRow (fwdPassUpTo d (n - 2)) k = getRow d k :=
      fwdPassUpTo_pres d _ k h
    have h1nz : zeroRow (getRow (fwdPassUpTo d (n - 2)) k) = false := by
      rw [h1]; exact h
    split
    · exact h1
    · have h2 : getRow (bwdPassFrom (fwdPassUpTo d (n - 2)) (n - 2)) k
          = getRow (fwdPassUpTo d (n - 2)) k := bwdPassFrom_pres _ _ k h1nz
      have h2nz :
          zeroRow (getRow (bwdPassFrom (fwdPassUpTo d (n - 2)) (n - 2)) k) = false := by
        rw [h2]; exact h1nz
      split
      · rw [h2, h1]
      · rw [outerLoop_pres n fuel _ k h2nz, h2, h1]

/-- Helper: with at least one non-zero row, one round of the outer loop
already clears every interior row, and the loop stops there. -/
theorem outerLoop_interior (n : Nat) (hn : 3 ≤ n) (fuel : Nat) (hf : 1 ≤ fuel)
    (d : List Row) (hlen : d.length = n)
    (hex : ∃ j, j < n ∧ zeroRow (getRow d j) = false) :
    ∀ k, 1 ≤ k → k ≤ n - 2 → zeroRow (getRow (outerLoop n fuel d) k) = false := by
  obtain ⟨f, rfl⟩ : ∃ f, fuel = f + 1 := ⟨fuel - 1, by omega⟩
  simp only [outerLoop]
  have htop : zeroRow (getRow (fwdPassUpTo d (n - 2)) (n - 2)) = false :=
    fwdPass_top n hn d hlen hex
  by_cases hc1 : interiorClear (fwdPassUpTo d (n - 2)) n = true
  · rw [if_pos hc1]
    exact (interiorClear_eq_true _ n).mp hc1
  · rw [if_neg hc1]
    have hall := bwdPass_interior n hn (fwdPassUpTo d (n - 2))
      (by rw [fwdPassUpTo_length]; exact hlen) htop
    have hc2 : interiorClear (bwdPassFrom (fwdPassUpTo d (n - 2)) (n - 2)) n = true :=
      (interiorClear_eq_true _ n).mpr hall
    rw [if_pos hc2]
    exact hall

/-- Helper: the two edge repairs keep the number of rows, leave no zero row
anywhere (given non-zero interior rows and, when the first row is zero, a
non-zero second row), and do not touch non-zero rows. -/
theorem edgeFixes_spec (n : Nat) (hn : 2 ≤ n) (d : List Row) (hlen : d.length = n)
    (hint : ∀ k, 1 ≤ k → k ≤ n - 2 → zeroRow (getRow d k) = false)
    (h01 : zeroRow (getRow d 0) = true → zeroRow (getRow d 1) = false) :
    (edgeFixes n d).length = n
    ∧ (∀ k, k < n → zeroRow (getRow (edgeFixes n d) k) = false)
    ∧ (∀ k, zeroRow (getRow d k) = false → getRow (edgeFixes n d) k = getRow d k) := by
  simp only [edgeFixes]
  set d1 := if zeroRow (getRow d 0) then d.set 0 (getRow d 1) else d with hd1
  have hd1len : d1.length = n := by
    rw [hd1]
    split
    · rw [List.length_set]; exact hlen
    · exact hlen
  have hd1_0 : zeroRow (getRow d1 0) = false := by
    rw [hd1]
    by_cases hz : zeroRow (getRow d 0) = true
    · rw [if_pos hz, getRow_set_self d 0 _ (by omega)]
      exact h01 hz
    · rw [if_neg hz]
      simpa using hz
  have hd1_interior : ∀ k, 1 ≤ k → k ≤ n - 2 → zeroRow (getRow d1 k) = false := by
    intro k hk1 hk2
    rw [hd1]
    split
    · rw [getRow_set_ne d 0 k _ (by omega)]
      exact hint k hk1 hk2
    · exact hint k hk1 hk2
  have hd1_pres : ∀ k, zeroRow (getRow d k) = false → getRow d1 k = getRow d k := by
    intro k hk
    rw [hd1]
    by_cases hz : zeroRow (getRow d 0) = true
    · rw [if_pos hz]
      by_cases hk0 : k = 0
      · subst hk0
        rw [hk] at hz
        simp at hz
      · rw [getRow_set_ne d 0 k _ (Ne.symm hk0)]
    · rw [if_neg hz]
  have hd1_last_nbr : zeroRow (getRow d1 (n - 2)) = false := by
    by_cases hn3 : 3 ≤ n
    · exact hd1_interior (n - 2) (by omega) (le_refl _)
    · have h2 : n = 2 := by omega
      rw [h2]
      exact hd1_0
  refine ⟨?_, ?_, ?_⟩
  · split
    · rw [List.length_set]; exact hd1len
    · exact hd1len
  · intro k hk
    by_cases hzl : zeroRow (getRow d1 (n - 1)) = true
    · rw [if_pos hzl]
      by_cases hkl : k = n - 1
      · subst hkl
        rw [getRow_set_self d1 _ _ (by rw [hd1len]; omega)]
        exact hd1_last_nbr
      · rw [getRow_set_ne d1 _ _ _ (fun he => hkl he.symm)]
        rcases (by omega : k = 0 ∨ (1 ≤ k ∧ k ≤ n - 2)) with rfl | ⟨hk1, hk2⟩
        · exact hd1_0
        · exact hd1_interior k hk1 hk2
    · rw [if_neg hzl]
      rcases (by omega : k = 0 ∨ (1 ≤ k ∧ k ≤ n - 2) ∨ k = n - 1)
          with rfl | ⟨hk1, hk2⟩ | rfl
      · exact hd1_0
      · exact hd1_interior k hk1 hk2
      · simpa using hzl
  · intro k hk
    have hp := hd1_pres k hk
    by_cases hzl : zeroRow (getRow d1 (n - 1)) = true
    · rw [if_pos hzl]
      by_cases hkl : k = n - 1
      · subst hkl
        exfalso
        rw [hp, hk] at hzl
        simp at hzl
      · rw [getRow_set_ne d1 _ _ _ (fun he => hkl he.symm)]
        exact hp
    · rw [if_neg hzl]
      exact hp

/-- C7, confirmed.  For every non-empty direction array: the repair raises
exactly when every row is all-zero; and whenever it returns, the result has
the same number of rows, contains no all-zero row, and agrees with the
input on every row that was originally non-zero. -/
theorem c7_fix_zero_directions (dirs : List Row) (hne : dirs ≠ []) :
    ((∃ e, fix_zero_directions dirs = .error e) ↔ ∀ r ∈ dirs, zeroRow r = true)
    ∧ ∀ out, fix_zero_directions dirs = .ok out →
        out.length = dirs.length
        ∧ (∀ r ∈ out, zeroRow r = false)
        ∧ ∀ k, k < dirs.length → zeroRow (getRow dirs k) = false →
            getRow out k = getRow dirs k := by
  by_cases hz0 : countZeroRows dirs = 0
  · have hfix : fix_zero_directions dirs = .ok dirs := by
      simp only [fix_zero_directions]
      rw [if_pos hz0]
    have hallnz : ∀ r ∈ dirs, zeroRow r = false := by
      intro r hr
      simpa using List.countP_eq_zero.mp hz0 r hr
    refine ⟨⟨?_, ?_⟩, ?_⟩
    · rintro ⟨e, he⟩
      rw [hfix] at he
      simp at he
    · intro hall
      obtain ⟨r, hr⟩ := List.exists_mem_of_ne_nil dirs hne
      have h1 := hallnz r hr
      rw [hall r hr] at h1
      simp at h1
    · intro out hout
      rw [hfix] at hout
      obtain rfl := Except.ok.inj hout
      exact ⟨rfl, hallnz, fun _ _ _ => rfl⟩
  · by_cases hzn : countZeroRows dirs = dirs.length
    · have hfix : fix_zero_directions dirs = .error "All elements are zero." := by
        simp only [fix_zero_directions]
        rw [if_neg hz0, if_pos hzn]
      refine ⟨⟨?_, ?_⟩, ?_⟩
      · intro _
        exact fun r hr => List.countP_eq_length.mp hzn r hr
      · intro _
        exact ⟨_, hfix⟩
      · intro out hout
        rw [hfix] at hout
        simp at hout
    · have hcle : countZeroRows dirs ≤ dirs.length := List.countP_le_length zeroRow
      have h0len : dirs.length ≠ 0 := fun h0 => hne (List.length_eq_zero.mp h0)
      have hn2 : 2 ≤ dirs.length := by omega
      have hfix : fix_zero_directions dirs =
          .ok (edgeFixes dirs.length
            (outerLoop dirs.length (dirs.length - 2) dirs)) := by
        simp only [fix_zero_directions]
        rw [if_neg hz0, if_neg hzn]
      have hex : ∃ j, j < dirs.length ∧ zeroRow (getRow dirs j) = false := by
        by_contra hno
        push_neg at hno
        apply hzn
        apply List.countP_eq_length.mpr
        intro a ha
        obtain ⟨i, hi, hieq⟩ := List.mem_iff_getElem.mp ha
        have hz := hno i hi
        have h2 : zeroRow (getRow dirs i) = true := by
          cases hb : zeroRow (getRow dirs i)
          · exact absurd hb hz
          · rfl
        rw [getRow, List.getD_eq_getElem dirs [] hi, hieq] at h2
        exact h2
      set dOut := outerLoop dirs.length (dirs.length - 2) dirs with hdOut
      have hOlen : dOut.length = dirs.length := outerLoop_length _ _ _
      have hOpres : ∀ k, zeroRow (getRow dirs k) = false →
          getRow dOut k = getRow dirs k := fun k hk => outerLoop_pres _ _ dirs k hk
      have hOinterior : ∀ k, 1 ≤ k → k ≤ dirs.length - 2 →
          zeroRow (getRow dOut k) = false := by
        by_cases hn3 : 3 ≤ dirs.length
        · exact outerLoop_interior dirs.length hn3 (dirs.length - 2) (by omega)
            dirs rfl hex
        · intro k hk1 hk2
          omega
      have hO01 : zeroRow (getRow dOut 0) = true →
          zeroRow (getRow dOut 1) = false := by
        intro hz
        by_cases hn3 : 3 ≤ dirs.length
        · exact hOinterior 1 (le_refl 1) (by omega)
        · have h2 : dirs.length = 2 := by omega
          have hOeq : dOut = dirs := by
            rw [hdOut, h2]
            rfl
          obtain ⟨j, hj, hjnz⟩ := hex
          rw [hOeq] at hz ⊢
          have hj1 : j = 1 := by
            rcases (by omega : j = 0 ∨ j = 1) with rfl | rfl
            · rw [hjnz] at hz
              simp at hz
            · rfl
          rw [← hj1]
          exact hjnz
      have hspec := edgeFixes_spec dirs.length hn2 dOut hOlen hOinterior hO01
      refine ⟨⟨?_, ?_⟩, ?_⟩
      · rintro ⟨e, he⟩
        rw [hfix] at he
        simp at he
      · intro hall
        obtain ⟨j, hj, hjnz⟩ := hex
        have hmem : getRow dirs j ∈ dirs := by
          rw [getRow, List.getD_eq_getElem dirs [] hj]
          exact List.getElem_mem hj
        rw [hall _ hmem] at hjnz
        simp at hjnz
      · intro out hout
        rw [hfix] at hout
        obtain rfl := Except.ok.inj hout
        refine ⟨hspec.1, ?_, ?_⟩
        · intro r hr
          obtain ⟨i, hi, hieq⟩ := List.mem_iff_getElem.mp hr
          have hi' : i < dirs.length := by
            rw [← hspec.1]
            exact hi
          have hnz := hspec.2.1 i hi'
          rw [getRow, List.getD_eq_getElem _ [] hi, hieq] at hnz
          exact hnz
        · intro k hk hknz
          have hpres := hOpres k hknz
          have hOnz : zeroRow (getRow dOut k) = false := by
            rw [hpres]; exact hknz
          rw [hspec.2.2 k hOnz, hpres]

/-- C7, witness for `c7_fix_zero_directions` at the concrete array
`[[0, 0], [1, 1]]` (one zero row, one non-zero row). -/
theorem c7_fix_zero_directions_witness :
    ((∃ e, fix_zero_directions [[(0 : ℚ), 0], [1, 1]] = .error e)
      ↔ ∀ r ∈ [[(0 : ℚ), 0], [1, 1]], zeroRow r = true)
    ∧ ∀ out, fix_zero_directions [[(0 : ℚ), 0], [1, 1]] = .ok out →
        out.length = ([[(0 : ℚ), 0], [1, 1]] : List Row).length
        ∧ (∀ r ∈ out, zeroRow r = false)
        ∧ ∀ k, k < ([[(0 : ℚ), 0], [1, 1]] : List Row).length →
            zeroRow (getRow [[(0 : ℚ), 0], [1, 1]] k) = false →
            getRow out k = getRow [[(0 : ℚ), 0], [1, 1]] k :=
  c7_fix_zero_directions [[0, 0], [1, 1]] (by simp)

end Odr
